import Mathlib

/-!
Verification development for the invoice ledger of `sparkswap/lnd`
(`channeldb/invoices.go`), shallowly embedded in Lean 4.

Byte sequences are `List Nat` with values `< 256` where well-formedness
matters; machine integers are `Nat` with explicit `% 2 ^ w` at the points
where the source wraps.  Fallible operations return `Except DBError`.
The bbolt store is modelled as explicit state (`DB`) with key-sorted
association lists, since bbolt buckets are ordered maps; a transactional
`Update` that fails rolls the state back, which the operation wrappers
implement by returning the original state alongside the error.
-/

/-- Error kinds of the invoice ledger.  The Go source uses sentinel error
values (`ErrDuplicateInvoice`, ...) plus `fmt.Errorf` for the remaining
failures, which are modelled by the `generic` constructor. -/
inductive DBError where
  | duplicateInvoice
  | invoiceNotFound
  | noInvoicesCreated
  | generic (msg : String)
deriving DecidableEq, Repr

deriving instance DecidableEq for Except

/-- Big-endian byte encoding of `w` into exactly `n` bytes (the value is
taken modulo `2 ^ (8 * n)` as the Go `binary.BigEndian` putters do). -/
def natToBytesBE : Nat → Nat → List Nat
  | 0, _ => []
  | n + 1, w => natToBytesBE n (w / 256) ++ [w % 256]

/-- Big-endian byte decoding. -/
def bytesBEtoNat (bs : List Nat) : Nat :=
  bs.foldl (fun a b => a * 256 + b) 0

/-- Little-endian encoding, used by the Bitcoin wire var-int format. -/
def natToBytesLE (n w : Nat) : List Nat :=
  (natToBytesBE n w).reverse

/-- Little-endian decoding. -/
def bytesLEtoNat (bs : List Nat) : Nat :=
  bytesBEtoNat bs.reverse

theorem natToBytesBE_length (n w : Nat) : (natToBytesBE n w).length = n := by
  induction n generalizing w with
  | zero => rfl
  | succ n ih => simp [natToBytesBE, ih]

theorem bytesBEtoNat_append_singleton (bs : List Nat) (b : Nat) :
    bytesBEtoNat (bs ++ [b]) = bytesBEtoNat bs * 256 + b := by
  simp [bytesBEtoNat]

theorem bytesBEtoNat_natToBytesBE (n w : Nat) (h : w < 256 ^ n) :
    bytesBEtoNat (natToBytesBE n w) = w := by
  induction n generalizing w with
  | zero =>
    simp [natToBytesBE, bytesBEtoNat]
    omega
  | succ n ih =>
    have hdiv : w / 256 < 256 ^ n := by
      rw [Nat.div_lt_iff_lt_mul (by norm_num)]
      calc w < 256 ^ (n + 1) := h
        _ = 256 ^ n * 256 := by ring
    rw [natToBytesBE, bytesBEtoNat_append_singleton, ih _ hdiv]
    omega

theorem bytesLEtoNat_natToBytesLE (n w : Nat) (h : w < 256 ^ n) :
    bytesLEtoNat (natToBytesLE n w) = w := by
  rw [natToBytesLE, bytesLEtoNat, List.reverse_reverse]
  exact bytesBEtoNat_natToBytesBE n w h

theorem natToBytesLE_length (n w : Nat) : (natToBytesLE n w).length = n := by
  simp [natToBytesLE, natToBytesBE_length]

/-- Reader for a single byte from a byte stream. -/
def readByte : List Nat → Except DBError (Nat × List Nat)
  | [] => .error (.generic "unexpected EOF")
  | b :: rest => .ok (b, rest)

/-- Reader for exactly `n` bytes, as `io.ReadFull` does. -/
def readBytesN : Nat → List Nat → Except DBError (List Nat × List Nat)
  | 0, bs => .ok ([], bs)
  | _ + 1, [] => .error (.generic "unexpected EOF")
  | n + 1, b :: bs =>
    match readBytesN n bs with
    | .error e => .error e
    | .ok (xs, rest) => .ok (b :: xs, rest)

theorem readBytesN_append (b rest : List Nat) :
    readBytesN b.length (b ++ rest) = .ok (b, rest) := by
  induction b with
  | nil => rfl
  | cons x xs ih => simp [readBytesN, ih]

theorem readByte_cons (b : Nat) (rest : List Nat) :
    readByte (b :: rest) = .ok (b, rest) := rfl

/-- Modelled from the spec: the Bitcoin wire `CompactSize` var-int writer
(`wire.WriteVarInt` of the external btcsuite library), wrapping the spec's
"explicit length prefixes". -/
def writeVarInt (n : Nat) : List Nat :=
  if n < 253 then [n]
  else if n < 65536 then 253 :: natToBytesLE 2 n
  else if n < 4294967296 then 254 :: natToBytesLE 4 n
  else 255 :: natToBytesLE 8 n

/-- Modelled from the spec: the Bitcoin wire `CompactSize` var-int reader
(`wire.ReadVarInt`), which rejects non-canonical encodings. -/
def readVarInt (bs : List Nat) : Except DBError (Nat × List Nat) :=
  match readByte bs with
  | .error e => .error e
  | .ok (d, rest) =>
    if d = 255 then
      match readBytesN 8 rest with
      | .error e => .error e
      | .ok (v8, rest') =>
        let v := bytesLEtoNat v8
        if v < 4294967296 then .error (.generic "non-canonical varint")
        else .ok (v, rest')
    else if d = 254 then
      match readBytesN 4 rest with
      | .error e => .error e
      | .ok (v4, rest') =>
        let v := bytesLEtoNat v4
        if v < 65536 then .error (.generic "non-canonical varint")
        else .ok (v, rest')
    else if d = 253 then
      match readBytesN 2 rest with
      | .error e => .error e
      | .ok (v2, rest') =>
        let v := bytesLEtoNat v2
        if v < 253 then .error (.generic "non-canonical varint")
        else .ok (v, rest')
    else .ok (d, rest)

/-- Modelled from the spec: `wire.WriteVarBytes`, a var-int length prefix
followed by the raw bytes. -/
def writeVarBytes (bs : List Nat) : List Nat :=
  writeVarInt bs.length ++ bs

/-- Modelled from the spec: `wire.ReadVarBytes`, which fails when the
length prefix exceeds the allowed maximum. -/
def readVarBytes (maxAllowed : Nat) (bs : List Nat) :
    Except DBError (List Nat × List Nat) :=
  match readVarInt bs with
  | .error e => .error e
  | .ok (count, rest) =>
    if count > maxAllowed then .error (.generic "variable length byte field too long")
    else readBytesN count rest

theorem readVarInt_writeVarInt (n : Nat) (h : n < 65536) (rest : List Nat) :
    readVarInt (writeVarInt n ++ rest) = .ok (n, rest) := by
  by_cases h1 : n < 253
  · have h255 : n ≠ 255 := by omega
    have h254 : n ≠ 254 := by omega
    have h253 : n ≠ 253 := by omega
    simp [writeVarInt, readVarInt, h1, readByte_cons, h255, h254, h253]
  · have hle : (natToBytesLE 2 n).length = 2 := natToBytesLE_length 2 n
    have hrt : bytesLEtoNat (natToBytesLE 2 n) = n :=
      bytesLEtoNat_natToBytesLE 2 n (by norm_num; omega)
    have hread : readBytesN 2 (natToBytesLE 2 n ++ rest) = .ok (natToBytesLE 2 n, rest) := by
      have := readBytesN_append (natToBytesLE 2 n) rest
      rwa [hle] at this
    simp [writeVarInt, readVarInt, h1, h, readByte_cons, hread, hrt]

theorem readVarBytes_append (b rest : List Nat) (maxAllowed : Nat)
    (h1 : b.length ≤ maxAllowed) (h2 : b.length < 65536) :
    readVarBytes maxAllowed (writeVarBytes b ++ rest) = .ok (b, rest) := by
  rw [writeVarBytes, List.append_assoc]
  rw [readVarBytes, readVarInt_writeVarInt b.length h2 (b ++ rest)]
  simp [Nat.not_lt.mpr h1, readBytesN_append, h1]

/-- Modelled from the spec: Go `time.Time` (external standard library).
The spec only requires "a self-delimited, round-trippable binary form
(library-provided or a fixed 12-15 byte layout)", so a timestamp is a
single abstract tick count. -/
structure Time where
  val : Nat
deriving DecidableEq, Repr

/-- Timestamps that fit the fixed 15-byte marshalled layout. -/
def timeEncodable (t : Time) : Prop := t.val < 256 ^ 15

instance (t : Time) : Decidable (timeEncodable t) := by
  unfold timeEncodable; infer_instance

/-- Modelled from the spec: `time.Time.MarshalBinary`, a fixed 15-byte
layout failing on unrepresentable timestamps. -/
def timeMarshalBinary (t : Time) : Except DBError (List Nat) :=
  if t.val < 256 ^ 15 then .ok (natToBytesBE 15 t.val)
  else .error (.generic "Time.MarshalBinary: unrepresentable time")

/-- Modelled from the spec: `time.Time.UnmarshalBinary`. -/
def timeUnmarshalBinary (bs : List Nat) : Except DBError Time :=
  if bytesBEtoNat bs < 256 ^ 15 ∧ bs.length = 15 then .ok ⟨bytesBEtoNat bs⟩
  else .error (.generic "Time.UnmarshalBinary: invalid data")

theorem timeUnmarshal_timeMarshal (t : Time) (h : timeEncodable t) :
    timeMarshalBinary t = .ok (natToBytesBE 15 t.val) ∧
      timeUnmarshalBinary (natToBytesBE 15 t.val) = .ok t := by
  have hlen := natToBytesBE_length 15 t.val
  have hrt := bytesBEtoNat_natToBytesBE 15 t.val h
  constructor
  · simp [timeMarshalBinary, h, timeEncodable] at *
    simp [h]
  · simp only [timeUnmarshalBinary, hrt, hlen]
    simp [timeEncodable] at h
    simp [h]

/-- ContractTerm houses the settlement conditions of an invoice
(`channeldb.ContractTerm`). -/
structure ContractTerm where
  externalPreimage : Bool
  paymentHash : List Nat
  paymentPreimage : List Nat
  value : Nat
  settled : Bool
deriving DecidableEq, Repr

/-- Invoice is the persisted payment-request entity (`channeldb.Invoice`). -/
structure Invoice where
  memo : List Nat
  receipt : List Nat
  paymentRequest : List Nat
  creationDate : Time
  settleDate : Time
  terms : ContractTerm
  addIndex : Nat
  settleIndex : Nat
  amtPaid : Nat
deriving DecidableEq, Repr

def MaxMemoSize : Nat := 1024
def MaxReceiptSize : Nat := 1024
def MaxPaymentRequestSize : Nat := 4096

/-- An all-zero 32-byte array (`zeroHash` / `zeroPreimage` in the source). -/
def zeroHash : List Nat := List.replicate 32 0

/-- Well-formed byte strings: every entry is an actual byte. -/
def wfBytes (bs : List Nat) : Prop := ∀ b ∈ bs, b < 256

instance (bs : List Nat) : Decidable (wfBytes bs) := by
  unfold wfBytes; infer_instance

/-- Well-formed 32-byte arrays. -/
def wf32 (bs : List Nat) : Prop := bs.length = 32 ∧ wfBytes bs

instance (bs : List Nat) : Decidable (wf32 bs) := by
  unfold wf32; infer_instance

/-- Invoices whose representation-level invariants hold: byte fields are
byte strings, machine-word fields fit 64 bits, timestamps are encodable.
Size ceilings on memo/receipt/payment request are included, matching the
add-time validation. -/
def wfInvoice (i : Invoice) : Prop :=
  wfBytes i.memo ∧ wfBytes i.receipt ∧ wfBytes i.paymentRequest ∧
  i.memo.length ≤ MaxMemoSize ∧ i.receipt.length ≤ MaxReceiptSize ∧
  i.paymentRequest.length ≤ MaxPaymentRequestSize ∧
  wf32 i.terms.paymentPreimage ∧ wf32 i.terms.paymentHash ∧
  i.terms.value < 2 ^ 64 ∧ i.addIndex < 2 ^ 64 ∧
  i.settleIndex < 2 ^ 64 ∧ i.amtPaid < 2 ^ 64 ∧
  timeEncodable i.creationDate ∧ timeEncodable i.settleDate

instance (i : Invoice) : Decidable (wfInvoice i) := by
  unfold wfInvoice; infer_instance

/-- The payment-hash normal form the codec maintains on disk and on read:
the `paymentHash` field is meaningful (non-zero) exactly for
external-preimage invoices, and all-zero otherwise. -/
def normalForm (i : Invoice) : Prop :=
  (i.terms.externalPreimage = true → i.terms.paymentHash ≠ zeroHash) ∧
  (i.terms.externalPreimage = false → i.terms.paymentHash = zeroHash)

instance (i : Invoice) : Decidable (normalForm i) := by
  unfold normalForm; infer_instance

/-- Modelled from the spec: `crypto/sha256` (external library).  The spec
treats SHA-256 as an opaque 32-byte hash function, so any executable
function on 32-byte arrays serves as its model. -/
def sha256Model (bs : List Nat) : List Nat :=
  bs.map (fun b => (b + 101) % 256)

/-- Computes the effective payment hash of an invoice
(`channeldb.getPaymentHash`): the stored hash for external-preimage
invoices, SHA-256 of the preimage otherwise. -/
def getPaymentHash (i : Invoice) : Except DBError (List Nat) :=
  if i.terms.externalPreimage then
    if i.terms.paymentHash = zeroHash then
      .error (.generic "Invoices with ExternalPreimage must have a locally defined PaymentHash.")
    else .ok i.terms.paymentHash
  else
    if i.terms.paymentPreimage = zeroHash then
      .error (.generic "Invoices must have a preimage oruse ExternalPreimages")
    else .ok (sha256Model i.terms.paymentPreimage)

/-- Validates field-size ceilings (`channeldb.validateInvoice`). -/
def validateInvoice (i : Invoice) : Except DBError Unit :=
  if i.memo.length > MaxMemoSize then .error (.generic "max length a memo exceeded")
  else if i.receipt.length > MaxReceiptSize then .error (.generic "max length a receipt exceeded")
  else if i.paymentRequest.length > MaxPaymentRequestSize then
    .error (.generic "max length of payment request exceeded")
  else .ok ()

/-- Encodes a boolean as one byte, as `binary.Write` does. -/
def boolByte (b : Bool) : List Nat := [if b then 1 else 0]

/-- Serializes an invoice to the flat binary record layout
(`channeldb.serializeInvoice`).  For non-external invoices the payment
hash field is written as all-zero. -/
def serializeInvoice (i : Invoice) : Except DBError (List Nat) :=
  match timeMarshalBinary i.creationDate with
  | .error e => .error e
  | .ok birthBytes =>
    match timeMarshalBinary i.settleDate with
    | .error e => .error e
    | .ok settleBytes =>
      match (if i.terms.externalPreimage then getPaymentHash i else .ok zeroHash) with
      | .error e => .error e
      | .ok paymentHash =>
        .ok (writeVarBytes i.memo ++ (writeVarBytes i.receipt ++
          (writeVarBytes i.paymentRequest ++ (writeVarBytes birthBytes ++
          (writeVarBytes settleBytes ++ (i.terms.paymentPreimage ++
          (paymentHash ++ (natToBytesBE 8 i.terms.value ++
          (boolByte i.terms.settled ++ (natToBytesBE 8 i.addIndex ++
          (natToBytesBE 8 i.settleIndex ++ (natToBytesBE 8 i.amtPaid ++
          boolByte i.terms.externalPreimage))))))))))))

/-- Decodes an invoice from the flat binary record layout
(`channeldb.deserializeInvoice`).  For non-external invoices the decoded
payment hash is discarded and replaced by all-zero. -/
def deserializeInvoice (bs : List Nat) : Except DBError Invoice :=
  match readVarBytes MaxMemoSize bs with
  | .error e => .error e
  | .ok (memo, bs) =>
  match readVarBytes MaxReceiptSize bs with
  | .error e => .error e
  | .ok (receipt, bs) =>
  match readVarBytes MaxPaymentRequestSize bs with
  | .error e => .error e
  | .ok (paymentRequest, bs) =>
  match readVarBytes 300 bs with
  | .error e => .error e
  | .ok (birthBytes, bs) =>
  match timeUnmarshalBinary birthBytes with
  | .error e => .error e
  | .ok creationDate =>
  match readVarBytes 300 bs with
  | .error e => .error e
  | .ok (settledBytes, bs) =>
  match timeUnmarshalBinary settledBytes with
  | .error e => .error e
  | .ok settleDate =>
  match readBytesN 32 bs with
  | .error e => .error e
  | .ok (paymentPreimage, bs) =>
  match readBytesN 32 bs with
  | .error e => .error e
  | .ok (paymentHashRead, bs) =>
  match readBytesN 8 bs with
  | .error e => .error e
  | .ok (valueBytes, bs) =>
  match readByte bs with
  | .error e => .error e
  | .ok (settledByte, bs) =>
  match readBytesN 8 bs with
  | .error e => .error e
  | .ok (addIndexBytes, bs) =>
  match readBytesN 8 bs with
  | .error e => .error e
  | .ok (settleIndexBytes, bs) =>
  match readBytesN 8 bs with
  | .error e => .error e
  | .ok (amtPaidBytes, bs) =>
  match readByte bs with
  | .error e => .error e
  | .ok (extByte, _) =>
    let externalPreimage : Bool := extByte ≠ 0
    .ok { memo := memo, receipt := receipt, paymentRequest := paymentRequest,
          creationDate := creationDate, settleDate := settleDate,
          terms := { externalPreimage := externalPreimage,
                     paymentHash := if externalPreimage then paymentHashRead else zeroHash,
                     paymentPreimage := paymentPreimage,
                     value := bytesBEtoNat valueBytes,
                     settled := settledByte ≠ 0 },
          addIndex := bytesBEtoNat addIndexBytes,
          settleIndex := bytesBEtoNat settleIndexBytes,
          amtPaid := bytesBEtoNat amtPaidBytes }

/-- Association-list lookup keyed by decidable equality, modelling
`bolt.Bucket.Get`. -/
def lookupA {α β : Type} [DecidableEq α] (k : α) : List (α × β) → Option β
  | [] => none
  | (k', v) :: rest => if k = k' then some v else lookupA k rest

/-- Insertion into a key-sorted association list, modelling
`bolt.Bucket.Put` on a bucket with numeric big-endian keys (bbolt keeps
keys in byte order, which for fixed-width big-endian keys is numeric
order). -/
def insertSorted {β : Type} (k : Nat) (v : β) : List (Nat × β) → List (Nat × β)
  | [] => [(k, v)]
  | (k', v') :: rest =>
    if k < k' then (k, v) :: (k', v') :: rest
    else if k = k' then (k, v) :: rest
    else (k', v') :: insertSorted k v rest

/-- Overwriting put for the hash-keyed index bucket (iteration order over
this bucket is never observed). -/
def putHash {β : Type} (k : List Nat) (v : β) (l : List (List Nat × β)) :
    List (List Nat × β) :=
  (k, v) :: l.filter (fun e => e.1 ≠ k)

/-- State of the invoice namespace inside the bolt database: the invoice
store, the payment-hash index with its invoice-number counter, and the
two sequence-index buckets with their bbolt per-bucket sequences.
Existence flags model `tx.Bucket` returning `nil` before the bucket is
first created. -/
structure DB where
  invoiceBucketExists : Bool
  invoiceIndexExists : Bool
  addIndexExists : Bool
  settleIndexExists : Bool
  invoices : List (Nat × List Nat)
  hashIndex : List (List Nat × Nat)
  numInvoicesCounter : Option Nat
  addIndexSeq : Nat
  addIndexEntries : List (Nat × Nat)
  settleIndexSeq : Nat
  settleIndexEntries : List (Nat × Nat)
deriving DecidableEq, Repr

/-- The fresh database: no buckets created yet. -/
def emptyDB : DB :=
  { invoiceBucketExists := false, invoiceIndexExists := false,
    addIndexExists := false, settleIndexExists := false,
    invoices := [], hashIndex := [], numInvoicesCounter := none,
    addIndexSeq := 0, addIndexEntries := [], settleIndexSeq := 0,
    settleIndexEntries := [] }

/-- Fetches and decodes the invoice stored under a primary key
(`channeldb.fetchInvoice`). -/
def fetchInvoice (db : DB) (invoiceNum : Nat) : Except DBError Invoice :=
  match lookupA invoiceNum db.invoices with
  | none => .error .invoiceNotFound
  | some bs => deserializeInvoice bs

/-- Writes a new invoice and all its index entries inside the add
transaction (`channeldb.putInvoice`).  Mirrors the source's write order:
counter, hash index, add-index sequence and mapping, then the record
itself.  On a serialization failure the source returns `0, nil`
(reporting success without storing the record), which is modelled
verbatim. -/
def putInvoice (db : DB) (i : Invoice) (invoiceNum : Nat) :
    Except DBError (DB × Nat) :=
  let db1 := { db with numInvoicesCounter := some ((invoiceNum + 1) % 2 ^ 32) }
  match getPaymentHash i with
  | .error e => .error e
  | .ok paymentHash =>
    let db2 := { db1 with hashIndex := putHash paymentHash invoiceNum db1.hashIndex }
    let nextAddSeqNo := (db2.addIndexSeq + 1) % 2 ^ 64
    let db3 := { db2 with
      addIndexSeq := nextAddSeqNo,
      addIndexEntries := insertSorted nextAddSeqNo invoiceNum db2.addIndexEntries }
    let iIndexed := { i with addIndex := nextAddSeqNo }
    match serializeInvoice iIndexed with
    | .error _ => .ok (db3, 0)
    | .ok bytes =>
      .ok ({ db3 with invoices := insertSorted invoiceNum bytes db3.invoices }, nextAddSeqNo)

/-- Inserts an invoice, deduplicating by payment hash
(`channeldb.DB.AddInvoice`).  The returned state is the original state
whenever an error is returned, modelling the transaction rollback. -/
def AddInvoice (db : DB) (i : Invoice) : DB × Except DBError Nat :=
  match validateInvoice i with
  | .error e => (db, .error e)
  | .ok _ =>
    let db0 := { db with
      invoiceBucketExists := true,
      invoiceIndexExists := true,
      addIndexExists := true }
    match getPaymentHash i with
    | .error e => (db, .error e)
    | .ok paymentHash =>
      if (lookupA paymentHash db0.hashIndex).isSome then (db, .error .duplicateInvoice)
      else
        let (db1, invoiceNum) :=
          match db0.numInvoicesCounter with
          | none => ({ db0 with numInvoicesCounter := some 0 }, 0)
          | some c => (db0, c)
        match putInvoice db1 i invoiceNum with
        | .error e => (db, .error e)
        | .ok (db2, newIndex) => (db2, .ok newIndex)

/-- Looks an invoice up by payment hash (`channeldb.DB.LookupInvoice`). -/
def LookupInvoice (db : DB) (paymentHash : List Nat) : Except DBError Invoice :=
  if db.invoiceBucketExists = false then .error .noInvoicesCreated
  else if db.invoiceIndexExists = false then .error .noInvoicesCreated
  else
    match lookupA paymentHash db.hashIndex with
    | none => .error .invoiceNotFound
    | some invoiceNum => fetchInvoice db invoiceNum

/-- Decodes every record of the invoice bucket in key order, skipping
settled invoices when `pendingOnly` is set (the loop body of
`channeldb.DB.FetchAllInvoices`). -/
def fetchAllLoop (pendingOnly : Bool) : List (Nat × List Nat) → Except DBError (List Invoice)
  | [] => .ok []
  | (_, bs) :: rest =>
    match deserializeInvoice bs with
    | .error e => .error e
    | .ok invoice =>
      match fetchAllLoop pendingOnly rest with
      | .error e => .error e
      | .ok tail =>
        if pendingOnly && invoice.terms.settled then .ok tail
        else .ok (invoice :: tail)

/-- Full scan of the invoice store (`channeldb.DB.FetchAllInvoices`).
Note that a missing invoice bucket surfaces `ErrNoInvoicesCreated` to the
caller: this scan does not swallow it. -/
def FetchAllInvoices (db : DB) (pendingOnly : Bool) : Except DBError (List Invoice) :=
  if db.invoiceBucketExists = false then .error .noInvoicesCreated
  else fetchAllLoop pendingOnly db.invoices

/-- Cursor landing of `Seek(target)` followed by `Next()` walks: the
suffix of the (key-sorted) bucket from the first key `≥ target`. -/
def seekFrom (target : Nat) : List (Nat × Nat) → List (Nat × Nat)
  | [] => []
  | e :: rest => if target ≤ e.1 then e :: rest else seekFrom target rest

/-- Entries visited when seeking to the first key `≥ target` and then
walking backwards with `Prev()`: the reversed prefix up to and including
the landing key, empty when the seek lands past the end. -/
def seekBack (target : Nat) : List (Nat × Nat) → List (Nat × Nat)
  | [] => []
  | e :: rest =>
    if target ≤ e.1 then [e]
    else
      match seekBack target rest with
      | [] => []
      | l => l ++ [e]

/-- Looks up and decodes the invoice behind each visited index entry (the
accumulation loop shared by the two since-scans). -/
def fetchInvoices (db : DB) : List (Nat × Nat) → Except DBError (List Invoice)
  | [] => .ok []
  | e :: rest =>
    match fetchInvoice db e.2 with
    | .error er => .error er
    | .ok invoice =>
      match fetchInvoices db rest with
      | .error er => .error er
      | .ok tail => .ok (invoice :: tail)

/-- Sequence-index scan body shared by `InvoicesAddedSince` and
`InvoicesSettledSince`: seek to the since-index, advance once to skip its
own entry, then collect while keys stay strictly above it. -/
def scanSinceEntries (db : DB) (entries : List (Nat × Nat)) (sinceIndex : Nat) :
    Except DBError (List Invoice) :=
  fetchInvoices db (((seekFrom sinceIndex entries).drop 1).takeWhile
    (fun e => sinceIndex < e.1))

/-- Catch-up scan over the add-index time series
(`channeldb.DB.InvoicesAddedSince`).  A zero since-index is a sentinel
returning no invoices, and `ErrNoInvoicesCreated` is swallowed into an
empty result. -/
def InvoicesAddedSince (db : DB) (sinceAddIndex : Nat) : Except DBError (List Invoice) :=
  if sinceAddIndex = 0 then .ok []
  else
    let r : Except DBError (List Invoice) :=
      if db.invoiceBucketExists = false then .error .noInvoicesCreated
      else if db.addIndexExists = false then .error .noInvoicesCreated
      else scanSinceEntries db db.addIndexEntries sinceAddIndex
    match r with
    | .error .noInvoicesCreated => .ok []
    | .error e => .error e
    | .ok l => .ok l

/-- Catch-up scan over the settle-index time series
(`channeldb.DB.InvoicesSettledSince`).  A zero since-index is a sentinel
returning no invoices; a missing bucket propagates `ErrNoInvoicesCreated`
to the caller (this scan does not swallow it). -/
def InvoicesSettledSince (db : DB) (sinceSettleIndex : Nat) : Except DBError (List Invoice) :=
  if sinceSettleIndex = 0 then .ok []
  else if db.invoiceBucketExists = false then .error .noInvoicesCreated
  else if db.settleIndexExists = false then .error .noInvoicesCreated
  else scanSinceEntries db db.settleIndexEntries sinceSettleIndex

/-- Marks a fetched invoice as settled inside the settle transaction
(`channeldb.settleInvoice`): returns the record unchanged when it is
already settled, otherwise consumes the next settle sequence number,
maps it, updates the record fields and overwrites the stored record. -/
def settleInvoiceTx (db : DB) (invoiceNum : Nat) (amtPaid : Nat) (now : Time) :
    Except DBError (DB × Invoice) :=
  match fetchInvoice db invoiceNum with
  | .error e => .error e
  | .ok invoice =>
    if invoice.terms.settled then .ok (db, invoice)
    else
      let nextSettleSeqNo := (db.settleIndexSeq + 1) % 2 ^ 64
      let db1 := { db with
        settleIndexSeq := nextSettleSeqNo,
        settleIndexEntries := insertSorted nextSettleSeqNo invoiceNum db.settleIndexEntries }
      let updated := { invoice with
        amtPaid := amtPaid,
        terms := { invoice.terms with settled := true },
        settleDate := now,
        settleIndex := nextSettleSeqNo }
      match serializeInvoice updated with
      | .error e => .error e
      | .ok bytes =>
        .ok ({ db1 with invoices := insertSorted invoiceNum bytes db1.invoices }, updated)

/-- Settles the invoice stored under a payment hash
(`channeldb.DB.SettleInvoice`).  The settlement timestamp `now` is the
value `time.Now()` would produce.  The returned state is the original
state whenever an error is returned, modelling the rollback. -/
def SettleInvoice (db : DB) (paymentHash : List Nat) (amtPaid : Nat) (now : Time) :
    DB × Except DBError Invoice :=
  let db0 := { db with
    invoiceBucketExists := true,
    invoiceIndexExists := true,
    settleIndexExists := true }
  match lookupA paymentHash db0.hashIndex with
  | none => (db, .error .invoiceNotFound)
  | some invoiceNum =>
    match settleInvoiceTx db0 invoiceNum amtPaid now with
    | .error e => (db, .error e)
    | .ok (db1, invoice) => (db1, .ok invoice)

/-- Stores an externally revealed preimage on a fetched invoice
(`channeldb.addInvoicePreimage`): rejected for non-external invoices and
when a non-zero preimage is already stored.  On a serialization failure
the source returns `nil` (reporting success without writing), which is
modelled verbatim. -/
def addInvoicePreimageTx (db : DB) (invoiceNum : Nat) (paymentPreimage : List Nat) :
    Except DBError DB :=
  match fetchInvoice db invoiceNum with
  | .error e => .error e
  | .ok invoice =>
    if invoice.terms.externalPreimage = false then
      .error (.generic "Invoices without an ExternalPreimage flag cannot have their preimage modified.")
    else if invoice.terms.paymentPreimage ≠ zeroHash then
      .error (.generic "Attempted to overwrite preimage on ExternalPreimage invoice")
    else
      let updated := { invoice with
        terms := { invoice.terms with paymentPreimage := paymentPreimage } }
      match serializeInvoice updated with
      | .error _ => .ok db
      | .ok bytes => .ok { db with invoices := insertSorted invoiceNum bytes db.invoices }

/-- Saves an out-of-band preimage for an external-preimage invoice
(`channeldb.DB.AddInvoicePreimage`).  The returned state is the original
state whenever an error is returned, modelling the rollback. -/
def AddInvoicePreimage (db : DB) (paymentHash paymentPreimage : List Nat) :
    DB × Except DBError Unit :=
  let db0 := { db with invoiceBucketExists := true, invoiceIndexExists := true }
  match lookupA paymentHash db0.hashIndex with
  | none => (db, .error .invoiceNotFound)
  | some invoiceNum =>
    match addInvoicePreimageTx db0 invoiceNum paymentPreimage with
    | .error e => (db, .error e)
    | .ok db1 => (db1, .ok ())

/-- Query parameters of `channeldb.InvoiceQuery`. -/
structure InvoiceQuery where
  indexOffset : Nat
  numMaxInvoices : Nat
  pendingOnly : Bool
  reversed : Bool
deriving DecidableEq, Repr

/-- Query response of `channeldb.InvoiceSlice`. -/
structure InvoiceSlice where
  query : InvoiceQuery
  invoices : List Invoice
  firstIndexOffset : Nat
  lastIndexOffset : Nat
deriving DecidableEq, Repr

/-- Assembles the response slice, recording the add indices of the first
and last returned invoices (zero when the result is empty). -/
def mkSlice (q : InvoiceQuery) (l : List Invoice) : InvoiceSlice :=
  { query := q, invoices := l,
    firstIndexOffset := match l.head? with | some i => i.addIndex | none => 0,
    lastIndexOffset := match l.getLast? with | some i => i.addIndex | none => 0 }

/-- Add-index entries the query cursor visits, in visit order
(the `keyForIndex` / `c.Last` / `nextKey` cursor movements of
`channeldb.DB.QueryInvoices`). -/
def queryWalk (db : DB) (q : InvoiceQuery) : List (Nat × Nat) :=
  if q.reversed then
    match q.indexOffset with
    | 0 => db.addIndexEntries.reverse
    | 1 => []
    | o + 2 => seekBack (o + 1) db.addIndexEntries
  else
    seekFrom (q.indexOffset + 1) db.addIndexEntries

/-- Collection loop of `channeldb.DB.QueryInvoices`: stop when the
remaining capacity is exhausted, fetch each visited invoice, skip settled
ones when `pendingOnly` is set (skipped records do not consume
capacity). -/
def collectKeys (db : DB) (pendingOnly : Bool) :
    Nat → List (Nat × Nat) → Except DBError (List Invoice)
  | _, [] => .ok []
  | 0, _ :: _ => .ok []
  | capacity + 1, e :: rest =>
    match fetchInvoice db e.2 with
    | .error er => .error er
    | .ok invoice =>
      if pendingOnly && invoice.terms.settled then
        collectKeys db pendingOnly (capacity + 1) rest
      else
        match collectKeys db pendingOnly capacity rest with
        | .error er => .error er
        | .ok tail => .ok (invoice :: tail)

/-- Offset/limit/reverse pagination over the add-index series
(`channeldb.DB.QueryInvoices`).  A reversed query with offset 1 returns
immediately; records collected in reverse traversal are reversed in
place before returning; `ErrNoInvoicesCreated` is swallowed into an
empty response. -/
def QueryInvoices (db : DB) (q : InvoiceQuery) : Except DBError InvoiceSlice :=
  let body : Except DBError (List Invoice) :=
    if db.invoiceBucketExists = false then .error .noInvoicesCreated
    else if db.addIndexExists = false then .error .noInvoicesCreated
    else if q.reversed = true ∧ q.indexOffset = 1 then .ok []
    else
      match collectKeys db q.pendingOnly q.numMaxInvoices (queryWalk db q) with
      | .error e => .error e
      | .ok collected => .ok (if q.reversed then collected.reverse else collected)
  match body with
  | .error .noInvoicesCreated => .ok (mkSlice q [])
  | .error e => .error e
  | .ok l => .ok (mkSlice q l)


theorem readBytesN_chunk (n : Nat) (b : List Nat) (h : b.length = n) (rest : List Nat) :
    readBytesN n (b ++ rest) = .ok (b, rest) := h ▸ readBytesN_append b rest

theorem readVarBytes_chunk (b : List Nat) (maxAllowed : Nat)
    (h1 : b.length ≤ maxAllowed) (h2 : maxAllowed ≤ 4096) (rest : List Nat) :
    readVarBytes maxAllowed (writeVarBytes b ++ rest) = .ok (b, rest) :=
  readVarBytes_append b rest maxAllowed h1 (by omega)

theorem readVarBytes_time (x : Nat) (rest : List Nat) :
    readVarBytes 300 (writeVarBytes (natToBytesBE 15 x) ++ rest) =
      .ok (natToBytesBE 15 x, rest) :=
  readVarBytes_append (natToBytesBE 15 x) rest 300
    (by rw [natToBytesBE_length]; omega) (by rw [natToBytesBE_length]; omega)

theorem timeUnmarshal_bytes (t : Time) (h : timeEncodable t) :
    timeUnmarshalBinary (natToBytesBE 15 t.val) = .ok t :=
  (timeUnmarshal_timeMarshal t h).2

theorem bytesBE_decode64 (v : Nat) (h : v < 2 ^ 64) :
    bytesBEtoNat (natToBytesBE 8 v) = v :=
  bytesBEtoNat_natToBytesBE 8 v (by
    have he : (256 : Nat) ^ 8 = 2 ^ 64 := by norm_num
    omega)

theorem boolByte_decode (b : Bool) :
    (!decide ((if b = true then (1 : Nat) else 0) = 0)) = b := by
  cases b <;> rfl

theorem boolByte_branch {α : Type} (b : Bool) (x y : α) :
    (if ((if b = true then (1 : Nat) else 0) = 0) then y else x) =
      if b = true then x else y := by
  cases b <;> simp

/-- Decoding a record assembled from the thirteen serialized chunks
recovers each field, with the payment hash kept only for external
invoices. -/
theorem deserializeInvoice_build
    (memo receipt payReq pre hf : List Nat) (cd sd : Time)
    (v ai si ap : Nat) (st ext : Bool)
    (hml : memo.length ≤ 1024) (hrl : receipt.length ≤ 1024)
    (hpl : payReq.length ≤ 4096)
    (hprel : pre.length = 32) (hhfl : hf.length = 32)
    (hv : v < 2 ^ 64) (hai : ai < 2 ^ 64) (hsi : si < 2 ^ 64) (hap : ap < 2 ^ 64)
    (hcd : timeEncodable cd) (hsd : timeEncodable sd) :
    deserializeInvoice (writeVarBytes memo ++ (writeVarBytes receipt ++
      (writeVarBytes payReq ++ (writeVarBytes (natToBytesBE 15 cd.val) ++
      (writeVarBytes (natToBytesBE 15 sd.val) ++ (pre ++ (hf ++
      (natToBytesBE 8 v ++ (boolByte st ++ (natToBytesBE 8 ai ++
      (natToBytesBE 8 si ++ (natToBytesBE 8 ap ++ boolByte ext)))))))))))) =
    .ok { memo := memo, receipt := receipt, paymentRequest := payReq,
          creationDate := cd, settleDate := sd,
          terms := { externalPreimage := ext,
                     paymentHash := if ext then hf else zeroHash,
                     paymentPreimage := pre, value := v, settled := st },
          addIndex := ai, settleIndex := si, amtPaid := ap } := by
  simp only [deserializeInvoice, MaxMemoSize, MaxReceiptSize, MaxPaymentRequestSize,
    boolByte, List.cons_append, List.nil_append,
    readVarBytes_chunk _ _ hml (by omega),
    readVarBytes_chunk _ _ hrl (by omega),
    readVarBytes_chunk _ _ hpl (by omega),
    readVarBytes_time,
    timeUnmarshal_bytes _ hcd, timeUnmarshal_bytes _ hsd,
    readBytesN_chunk _ _ hprel, readBytesN_chunk _ _ hhfl,
    readBytesN_chunk _ _ (natToBytesBE_length 8 v),
    readByte_cons, bytesBE_decode64 _ hv]
  simp only [readBytesN_chunk _ _ (natToBytesBE_length 8 ai), bytesBE_decode64 _ hai]
  simp only [readBytesN_chunk _ _ (natToBytesBE_length 8 si), bytesBE_decode64 _ hsi]
  simp only [readBytesN_chunk _ _ (natToBytesBE_length 8 ap), bytesBE_decode64 _ hap,
    readByte_cons]
  cases st <;> cases ext <;> simp

/-- Serialization succeeds exactly on encodable timestamps plus, for
external invoices, a usable payment hash; the produced bytes are the
thirteen chunks with the hash field all-zero for non-external
invoices. -/
theorem serializeInvoice_eq (i : Invoice)
    (hcd : timeEncodable i.creationDate) (hsd : timeEncodable i.settleDate)
    (hh : i.terms.externalPreimage = true → i.terms.paymentHash ≠ zeroHash) :
    serializeInvoice i =
      .ok (writeVarBytes i.memo ++ (writeVarBytes i.receipt ++
        (writeVarBytes i.paymentRequest ++
        (writeVarBytes (natToBytesBE 15 i.creationDate.val) ++
        (writeVarBytes (natToBytesBE 15 i.settleDate.val) ++
        (i.terms.paymentPreimage ++
        ((if i.terms.externalPreimage then i.terms.paymentHash else zeroHash) ++
        (natToBytesBE 8 i.terms.value ++ (boolByte i.terms.settled ++
        (natToBytesBE 8 i.addIndex ++ (natToBytesBE 8 i.settleIndex ++
        (natToBytesBE 8 i.amtPaid ++
        boolByte i.terms.externalPreimage)))))))))))) := by
  have h1 : timeMarshalBinary i.creationDate = .ok (natToBytesBE 15 i.creationDate.val) :=
    (timeUnmarshal_timeMarshal _ hcd).1
  have h2 : timeMarshalBinary i.settleDate = .ok (natToBytesBE 15 i.settleDate.val) :=
    (timeUnmarshal_timeMarshal _ hsd).1
  cases hext : i.terms.externalPreimage with
  | false =>
    simp only [serializeInvoice, h1, h2, hext]
    simp
  | true =>
    have hph := hh hext
    simp only [serializeInvoice, h1, h2, hext, getPaymentHash]
    simp [hph]

/-- Round-trip of the record codec on well-formed invoices whose payment
hash field is in the on-disk normal form. -/
theorem serialize_deserialize_roundtrip (i : Invoice)
    (hwf : wfInvoice i) (hnf : normalForm i) :
    ∃ bs, serializeInvoice i = .ok bs ∧ deserializeInvoice bs = .ok i := by
  obtain ⟨memo, receipt, payReq, cd, sd, ⟨ext, ph, pp, v, st⟩, ai, si, ap⟩ := i
  obtain ⟨-, -, -, hml, hrl, hpl, ⟨hprel, -⟩, ⟨hhl, -⟩, hv, hai, hsi, hap, hcd, hsd⟩ := hwf
  refine ⟨_, serializeInvoice_eq _ hcd hsd (fun hx => hnf.1 hx), ?_⟩
  have hb := deserializeInvoice_build memo receipt payReq pp
    (if ext then ph else zeroHash) cd sd v ai si ap st ext
    hml hrl hpl hprel (by cases ext <;> simp [zeroHash, hhl]) hv hai hsi hap hcd hsd
  dsimp only at hb ⊢
  rw [hb]
  cases hext : ext with
  | true => simp
  | false =>
    have hz : ph = zeroHash := hnf.2 (by simpa using hext)
    simp [hz]

theorem lookupA_putHash_self {β : Type} (k : List Nat) (v : β) (l : List (List Nat × β)) :
    lookupA k (putHash k v l) = some v := by
  simp [putHash, lookupA]

theorem lookupA_insertSorted_self {β : Type} (k : Nat) (v : β) (l : List (Nat × β)) :
    lookupA k (insertSorted k v l) = some v := by
  induction l with
  | nil => simp [insertSorted, lookupA]
  | cons e rest ih =>
    by_cases h1 : k < e.1
    · simp [insertSorted, h1, lookupA]
    · by_cases h2 : k = e.1
      · simp [insertSorted, h1, h2, lookupA]
      · simp [insertSorted, h1, h2, lookupA, ih]

theorem lookupA_insertSorted_ne {β : Type} (k k' : Nat) (v : β) (l : List (Nat × β))
    (h : k' ≠ k) :
    lookupA k' (insertSorted k v l) = lookupA k' l := by
  induction l with
  | nil => simp [insertSorted, lookupA, h]
  | cons e rest ih =>
    by_cases h1 : k < e.1
    · simp [insertSorted, h1, lookupA, h]
    · by_cases h2 : k = e.1
      · subst h2; simp [insertSorted, h1, lookupA, h]
      · simp [insertSorted, h1, h2, lookupA, ih]

/-- Fetching a primary key whose stored bytes are the serialization of a
well-formed normal-form invoice decodes that invoice. -/
theorem fetch_of_stored (db : DB) (num : Nat) (i : Invoice)
    (hwf : wfInvoice i) (hnf : normalForm i)
    (hlk : lookupA num db.invoices = (serializeInvoice i).toOption) :
    fetchInvoice db num = .ok i := by
  obtain ⟨bs, hser, hdes⟩ := serialize_deserialize_roundtrip i hwf hnf
  rw [fetchInvoice, hlk, hser]
  simpa using hdes

/-- A ledger position holding a specific well-formed invoice: the hash
index maps the payment hash to the primary key, under which the invoice's
serialization is stored. -/
def goodStored (db : DB) (paymentHash : List Nat) (num : Nat) (i : Invoice) : Prop :=
  wfInvoice i ∧ normalForm i ∧
  lookupA paymentHash db.hashIndex = some num ∧
  lookupA num db.invoices = (serializeInvoice i).toOption

instance (db : DB) (paymentHash : List Nat) (num : Nat) (i : Invoice) :
    Decidable (goodStored db paymentHash num i) := by
  unfold goodStored; infer_instance

/-- Concrete invoices and ledgers used by the witnesses and
counterexamples below. -/
def testInvoiceLocal : Invoice :=
  { memo := [109], receipt := [114], paymentRequest := [],
    creationDate := ⟨1⟩, settleDate := ⟨0⟩,
    terms := { externalPreimage := false, paymentHash := zeroHash,
               paymentPreimage := List.replicate 32 7, value := 10000, settled := false },
    addIndex := 0, settleIndex := 0, amtPaid := 0 }

/-- The effective payment hash of `testInvoiceLocal`. -/
def hashLocal : List Nat := sha256Model (List.replicate 32 7)

/-- A second invoice with the same preimage (hence the same effective
payment hash) but different other fields. -/
def testInvoiceLocal2 : Invoice :=
  { testInvoiceLocal with
    memo := [110],
    terms := { testInvoiceLocal.terms with value := 42 } }

/-- The externally supplied payment hash of `testInvoiceExt`. -/
def hashExt : List Nat := List.replicate 32 2

def testInvoiceExt : Invoice :=
  { memo := [101], receipt := [], paymentRequest := [],
    creationDate := ⟨2⟩, settleDate := ⟨0⟩,
    terms := { externalPreimage := true, paymentHash := hashExt,
               paymentPreimage := zeroHash, value := 5, settled := false },
    addIndex := 0, settleIndex := 0, amtPaid := 0 }

/-- An invoice whose creation date cannot be marshalled, making
`serializeInvoice` fail inside `putInvoice`. -/
def testInvoiceBadDate : Invoice :=
  { memo := [98], receipt := [], paymentRequest := [],
    creationDate := ⟨256 ^ 15⟩, settleDate := ⟨0⟩,
    terms := { externalPreimage := false, paymentHash := zeroHash,
               paymentPreimage := List.replicate 32 9, value := 7, settled := false },
    addIndex := 0, settleIndex := 0, amtPaid := 0 }

/-- A non-external invoice carrying a non-zero `paymentHash` field. -/
def testInvoiceHashMismatch : Invoice :=
  { testInvoiceLocal with
    terms := { testInvoiceLocal.terms with paymentHash := List.replicate 32 1 } }

/-- Ledger with `testInvoiceLocal` added. -/
def dbW1 : DB := (AddInvoice emptyDB testInvoiceLocal).1

/-- Ledger with `testInvoiceLocal` then `testInvoiceExt` added. -/
def dbW2 : DB := (AddInvoice dbW1 testInvoiceExt).1

/-- C1: the claim states that AddInvoice is atomic — any failing step
returns an error and leaves no write behind, and success implies the
invoice record was stored.  The code violates this: when
`serializeInvoice` fails inside `putInvoice`, the source's
`return 0, nil` reports success, the transaction commits, and the
hash-index entry, counter update and add-index entry survive while the
invoice record itself was never written. -/
theorem c1_atomicity_violation :
    (AddInvoice emptyDB testInvoiceBadDate).2 = .ok 0 ∧
    (AddInvoice emptyDB testInvoiceBadDate).1.invoices = [] ∧
    lookupA (sha256Model (List.replicate 32 9))
      (AddInvoice emptyDB testInvoiceBadDate).1.hashIndex = some 0 ∧
    (AddInvoice emptyDB testInvoiceBadDate).1.addIndexEntries = [(1, 0)] ∧
    (AddInvoice emptyDB testInvoiceBadDate).1.numInvoicesCounter = some 1 ∧
    LookupInvoice (AddInvoice emptyDB testInvoiceBadDate).1
      (sha256Model (List.replicate 32 9)) = .error .invoiceNotFound := by
  decide

/-- C8: the claim states that successful AddInvoice calls on a fresh
ledger return add indices 1, 2, 3, ... strictly increasing and gapless.
The code violates this through the `return 0, nil` slip in `putInvoice`:
an invoice whose timestamp cannot be serialized yields a successful call
returning 0 while still consuming an add-sequence number, so the
successful returns here are 1, 0, 3. -/
theorem c8_monotonicity_violation :
    (AddInvoice emptyDB testInvoiceLocal).2 = .ok 1 ∧
    (AddInvoice (AddInvoice emptyDB testInvoiceLocal).1 testInvoiceBadDate).2 = .ok 0 ∧
    (AddInvoice (AddInvoice (AddInvoice emptyDB testInvoiceLocal).1
      testInvoiceBadDate).1 testInvoiceExt).2 = .ok 3 := by
  decide

/-- C3: the claim states that every scan operation (FetchAllInvoices,
InvoicesAddedSince, InvoicesSettledSince, QueryInvoices) on a ledger
without the invoice bucket returns an empty sequence and no error, with
NoInvoicesCreated never surfaced.  This is false: on the fresh ledger
both FetchAllInvoices and InvoicesSettledSince surface
ErrNoInvoicesCreated to the caller. -/
theorem c3_counterexample :
    FetchAllInvoices emptyDB false = .error .noInvoicesCreated ∧
    InvoicesSettledSince emptyDB 1 = .error .noInvoicesCreated := by
  decide

/-- C3 (amended): on a ledger whose invoice bucket does not exist,
InvoicesAddedSince and QueryInvoices swallow NoInvoicesCreated and
return an empty sequence with no error, while FetchAllInvoices and
InvoicesSettledSince (for a non-zero since-index) surface
NoInvoicesCreated to the caller. -/
theorem c3_scan_missing_bucket (db : DB) (k : Nat) (q : InvoiceQuery) (p : Bool)
    (hb : db.invoiceBucketExists = false) (hk : 0 < k) :
    InvoicesAddedSince db k = .ok [] ∧
    QueryInvoices db q = .ok (mkSlice q []) ∧
    FetchAllInvoices db p = .error .noInvoicesCreated ∧
    InvoicesSettledSince db k = .error .noInvoicesCreated := by
  have hk' : k ≠ 0 := by omega
  refine ⟨?_, ?_, ?_, ?_⟩
  · simp [InvoicesAddedSince, hb, hk']
  · simp [QueryInvoices, hb]
  · simp [FetchAllInvoices, hb]
  · simp [InvoicesSettledSince, hb, hk']

/-- Witness for the amended C3 on the fresh ledger. -/
theorem c3_scan_missing_bucket_witness :
    emptyDB.invoiceBucketExists = false ∧ 0 < 2 ∧
    InvoicesAddedSince emptyDB 2 = .ok [] ∧
    QueryInvoices emptyDB ⟨0, 5, false, false⟩ = .ok (mkSlice ⟨0, 5, false, false⟩ []) ∧
    FetchAllInvoices emptyDB true = .error .noInvoicesCreated ∧
    InvoicesSettledSince emptyDB 2 = .error .noInvoicesCreated := by
  have h := c3_scan_missing_bucket emptyDB 2 ⟨0, 5, false, false⟩ true rfl (by decide)
  exact ⟨rfl, by decide, h.1, h.2.1, h.2.2.1, h.2.2.2⟩

/-- The bytes produced by serializing `testInvoiceHashMismatch`. -/
def c4bytes : List Nat :=
  (serializeInvoice testInvoiceHashMismatch).toOption.getD []

/-- C4: the claim states that for every invoice within size ceilings with
encodable timestamps, decoding the encoding yields the invoice
field-for-field, including the paymentHash field.  This is false: for a
non-external invoice carrying a non-zero paymentHash field, the codec
writes the hash field as all-zero and zeroes it again on read, so the
round-tripped invoice differs from the original in that field. -/
theorem c4_counterexample :
    wfInvoice testInvoiceHashMismatch ∧
    serializeInvoice testInvoiceHashMismatch = .ok c4bytes ∧
    deserializeInvoice c4bytes ≠ .ok testInvoiceHashMismatch ∧
    deserializeInvoice c4bytes =
      .ok { testInvoiceHashMismatch with
        terms := { testInvoiceHashMismatch.terms with paymentHash := zeroHash } } := by
  decide

/-- C4 (amended): for every well-formed invoice within the size ceilings,
with encodable timestamps, whose paymentHash field is in the on-disk
normal form (all-zero exactly when externalPreimage is false), decoding
the encoding yields an invoice equal to the original field-for-field,
including zero-value timestamps and indices. -/
theorem c4_roundtrip (i : Invoice) (hwf : wfInvoice i) (hnf : normalForm i) :
    ∃ bs, serializeInvoice i = .ok bs ∧ deserializeInvoice bs = .ok i :=
  serialize_deserialize_roundtrip i hwf hnf

/-- Witness for the amended C4 on a concrete invoice. -/
theorem c4_roundtrip_witness :
    wfInvoice testInvoiceLocal ∧ normalForm testInvoiceLocal ∧
    ∃ bs, serializeInvoice testInvoiceLocal = .ok bs ∧
      deserializeInvoice bs = .ok testInvoiceLocal :=
  ⟨by decide, by decide, c4_roundtrip testInvoiceLocal (by decide) (by decide)⟩

theorem wfInvoice_setPreimage (i : Invoice) (p : List Nat)
    (hwf : wfInvoice i) (hp : wf32 p) :
    wfInvoice { i with terms := { i.terms with paymentPreimage := p } } := by
  obtain ⟨h1, h2, h3, h4, h5, h6, -, h8, h9, h10, h11, h12, h13, h14⟩ := hwf
  exact ⟨h1, h2, h3, h4, h5, h6, hp, h8, h9, h10, h11, h12, h13, h14⟩

theorem normalForm_setPreimage (i : Invoice) (p : List Nat) (hnf : normalForm i) :
    normalForm { i with terms := { i.terms with paymentPreimage := p } } :=
  ⟨hnf.1, hnf.2⟩

/-- A successful preimage reveal on a stored pending-preimage external
invoice: the call reports success and the stored record now carries the
supplied preimage, whatever it is. -/
theorem addPreimage_pending (db : DB) (h : List Nat) (num : Nat) (i : Invoice)
    (p : List Nat) (hg : goodStored db h num i)
    (hext : i.terms.externalPreimage = true)
    (hpend : i.terms.paymentPreimage = zeroHash) (hp : wf32 p) :
    (AddInvoicePreimage db h p).2 = .ok () ∧
    LookupInvoice (AddInvoicePreimage db h p).1 h =
      .ok { i with terms := { i.terms with paymentPreimage := p } } ∧
    goodStored (AddInvoicePreimage db h p).1 h num
      { i with terms := { i.terms with paymentPreimage := p } } := by
  obtain ⟨hwf, hnf, hhash, hinv⟩ := hg
  have hwf' : wfInvoice { i with terms := { i.terms with paymentPreimage := p } } :=
    wfInvoice_setPreimage i p hwf hp
  have hnf' : normalForm { i with terms := { i.terms with paymentPreimage := p } } :=
    normalForm_setPreimage i p hnf
  obtain ⟨bs', hser', hdes'⟩ := serialize_deserialize_roundtrip _ hwf' hnf'
  have hser2 := hser'
  simp only [hext] at hser2
  have hfetch : fetchInvoice
      { db with invoiceBucketExists := true, invoiceIndexExists := true } num = .ok i :=
    fetch_of_stored _ num i hwf hnf hinv
  have hrun : AddInvoicePreimage db h p =
      ({ db with
          invoiceBucketExists := true,
          invoiceIndexExists := true,
          invoices := insertSorted num bs' db.invoices }, .ok ()) := by
    simp only [AddInvoicePreimage, addInvoicePreimageTx, hhash, hfetch]
    simp [hext, hpend, hser2]
  refine ⟨by rw [hrun], ?_, ?_⟩
  · rw [hrun]
    simp only [LookupInvoice, fetchInvoice]
    simp only [hhash]
    simp [lookupA_insertSorted_self, hdes']
  · rw [hrun]
    exact ⟨hwf', hnf', hhash,
      by simp [lookupA_insertSorted_self, hser', Except.toOption]⟩

/-- A preimage reveal against a stored invoice whose preimage is already
set fails and rolls back. -/
theorem addPreimage_already_set (db : DB) (h : List Nat) (num : Nat) (i : Invoice)
    (p : List Nat) (hg : goodStored db h num i)
    (hext : i.terms.externalPreimage = true)
    (hset : i.terms.paymentPreimage ≠ zeroHash) :
    AddInvoicePreimage db h p =
      (db, .error (.generic "Attempted to overwrite preimage on ExternalPreimage invoice")) := by
  obtain ⟨hwf, hnf, hhash, hinv⟩ := hg
  have hfetch : fetchInvoice
      { db with invoiceBucketExists := true, invoiceIndexExists := true } num = .ok i :=
    fetch_of_stored _ num i hwf hnf hinv
  simp only [AddInvoicePreimage, addInvoicePreimageTx, hhash, hfetch]
  simp [hext, hset]

/-- A preimage reveal against a stored non-external invoice fails and
rolls back. -/
theorem addPreimage_non_external (db : DB) (h : List Nat) (num : Nat) (i : Invoice)
    (p : List Nat) (hg : goodStored db h num i)
    (hext : i.terms.externalPreimage = false) :
    AddInvoicePreimage db h p =
      (db, .error (.generic
        "Invoices without an ExternalPreimage flag cannot have their preimage modified.")) := by
  obtain ⟨hwf, hnf, hhash, hinv⟩ := hg
  have hfetch : fetchInvoice
      { db with invoiceBucketExists := true, invoiceIndexExists := true } num = .ok i :=
    fetch_of_stored _ num i hwf hnf hinv
  simp only [AddInvoicePreimage, addInvoicePreimageTx, hhash, hfetch]
  simp [hext]

/-- The invoice record stored by `dbW2` under the external hash. -/
def extStored : Invoice := { testInvoiceExt with addIndex := 2 }

/-- The invoice record stored by `dbW1` under the local hash. -/
def localStored : Invoice := { testInvoiceLocal with addIndex := 1 }

/-- C2: the claim states that a pending-preimage external invoice admits
exactly one successful AddInvoicePreimage call, which transitions it to
a non-zero preimage, all later calls failing.  This is false: supplying
the all-zero preimage succeeds any number of times, each call leaving
the invoice still pending, so two successful calls occur on the same
hash with no transition. -/
theorem c2_counterexample :
    goodStored dbW2 hashExt 1 extStored ∧
    extStored.terms.externalPreimage = true ∧
    extStored.terms.paymentPreimage = zeroHash ∧
    (AddInvoicePreimage dbW2 hashExt zeroHash).2 = .ok () ∧
    (AddInvoicePreimage (AddInvoicePreimage dbW2 hashExt zeroHash).1
      hashExt zeroHash).2 = .ok () ∧
    LookupInvoice (AddInvoicePreimage (AddInvoicePreimage dbW2 hashExt zeroHash).1
      hashExt zeroHash).1 hashExt = .ok extStored := by
  decide

/-- C2 (amended): for a stored external-preimage invoice with all-zero
preimage, a call supplying a non-zero preimage succeeds and transitions
the stored record, and every call after it fails with a rollback; a call
against an invoice whose preimage is already non-zero fails with a
rollback; a call against a non-external invoice fails with a rollback;
and — the exception the code adds — a call supplying the all-zero
preimage succeeds while leaving the invoice in the pending state. -/
theorem c2_preimage_write_once (db : DB) (h : List Nat) (num : Nat) (i : Invoice)
    (hg : goodStored db h num i) :
    (∀ p, i.terms.externalPreimage = true → i.terms.paymentPreimage = zeroHash →
      wf32 p →
      (AddInvoicePreimage db h p).2 = .ok () ∧
      LookupInvoice (AddInvoicePreimage db h p).1 h =
        .ok { i with terms := { i.terms with paymentPreimage := p } }) ∧
    (∀ p p', i.terms.externalPreimage = true → i.terms.paymentPreimage = zeroHash →
      wf32 p → p ≠ zeroHash →
      AddInvoicePreimage (AddInvoicePreimage db h p).1 h p' =
        ((AddInvoicePreimage db h p).1,
         .error (.generic "Attempted to overwrite preimage on ExternalPreimage invoice"))) ∧
    (∀ p, i.terms.externalPreimage = true → i.terms.paymentPreimage ≠ zeroHash →
      AddInvoicePreimage db h p =
        (db, .error (.generic "Attempted to overwrite preimage on ExternalPreimage invoice"))) ∧
    (∀ p, i.terms.externalPreimage = false →
      AddInvoicePreimage db h p =
        (db, .error (.generic
          "Invoices without an ExternalPreimage flag cannot have their preimage modified."))) ∧
    (i.terms.externalPreimage = true → i.terms.paymentPreimage = zeroHash →
      (AddInvoicePreimage db h zeroHash).2 = .ok () ∧
      LookupInvoice (AddInvoicePreimage db h zeroHash).1 h = .ok i) := by
  refine ⟨?_, ?_, ?_, ?_, ?_⟩
  · intro p hext hpend hp
    exact ⟨(addPreimage_pending db h num i p hg hext hpend hp).1,
           (addPreimage_pending db h num i p hg hext hpend hp).2.1⟩
  · intro p p' hext hpend hp hpz
    have hgood := (addPreimage_pending db h num i p hg hext hpend hp).2.2
    exact addPreimage_already_set _ h num _ p' hgood hext hpz
  · intro p hext hset
    exact addPreimage_already_set db h num i p hg hext hset
  · intro p hext
    exact addPreimage_non_external db h num i p hg hext
  · intro hext hpend
    have ha := addPreimage_pending db h num i zeroHash hg hext hpend (by decide)
    refine ⟨ha.1, ?_⟩
    have heq : { i with terms := { i.terms with paymentPreimage := zeroHash } } = i := by
      rw [← hpend]
    rw [heq] at ha
    exact ha.2.1

/-- Witness for the amended C2: the non-zero reveal succeeds once on the
stored external invoice and the follow-up call fails with a rollback;
the same theorem applied to the stored non-external invoice rejects the
call outright. -/
theorem c2_preimage_write_once_witness :
    goodStored dbW2 hashExt 1 extStored ∧
    goodStored dbW1 hashLocal 0 localStored ∧
    (AddInvoicePreimage dbW2 hashExt (List.replicate 32 3)).2 = .ok () ∧
    LookupInvoice (AddInvoicePreimage dbW2 hashExt (List.replicate 32 3)).1 hashExt =
      .ok { extStored with
        terms := { extStored.terms with paymentPreimage := List.replicate 32 3 } } ∧
    AddInvoicePreimage (AddInvoicePreimage dbW2 hashExt (List.replicate 32 3)).1
      hashExt (List.replicate 32 5) =
      ((AddInvoicePreimage dbW2 hashExt (List.replicate 32 3)).1,
       .error (.generic "Attempted to overwrite preimage on ExternalPreimage invoice")) ∧
    AddInvoicePreimage dbW1 hashLocal (List.replicate 32 5) =
      (dbW1, .error (.generic
        "Invoices without an ExternalPreimage flag cannot have their preimage modified.")) := by
  have hc := c2_preimage_write_once dbW2 hashExt 1 extStored (by decide)
  have hd := c2_preimage_write_once dbW1 hashLocal 0 localStored (by decide)
  refine ⟨by decide, by decide, ?_, ?_, ?_, ?_⟩
  · exact (hc.1 (List.replicate 32 3) (by decide) (by decide) (by decide)).1
  · exact (hc.1 (List.replicate 32 3) (by decide) (by decide) (by decide)).2
  · exact hc.2.1 (List.replicate 32 3) (List.replicate 32 5)
      (by decide) (by decide) (by decide) (by decide)
  · exact hd.2.2.2.1 (List.replicate 32 5) (by decide)

/-- C10: AddInvoicePreimage never verifies that the supplied preimage
hashes to the invoice's payment hash: for every stored pending external
invoice and every well-formed 32-byte preimage p the call succeeds and
LookupInvoice afterwards returns the invoice carrying p — note no
hypothesis relates sha256 of p to the hash — and supplying the all-zero
p succeeds while leaving the invoice in the pending-preimage state. -/
theorem c10_preimage_not_verified (db : DB) (h : List Nat) (num : Nat) (i : Invoice)
    (p : List Nat) (hg : goodStored db h num i)
    (hext : i.terms.externalPreimage = true)
    (hpend : i.terms.paymentPreimage = zeroHash) (hp : wf32 p) :
    (AddInvoicePreimage db h p).2 = .ok () ∧
    LookupInvoice (AddInvoicePreimage db h p).1 h =
      .ok { i with terms := { i.terms with paymentPreimage := p } } ∧
    (p = zeroHash →
      LookupInvoice (AddInvoicePreimage db h p).1 h = .ok i) := by
  have ha := addPreimage_pending db h num i p hg hext hpend hp
  refine ⟨ha.1, ha.2.1, ?_⟩
  intro hz
  subst hz
  have heq : { i with terms := { i.terms with paymentPreimage := zeroHash } } = i := by
    rw [← hpend]
  rw [heq] at ha
  exact ha.2.1

/-- Witness for C10: the supplied preimage hashes to something other
than the stored payment hash, yet the reveal succeeds and is returned by
LookupInvoice; the all-zero preimage is also accepted, leaving the
stored invoice unchanged. -/
theorem c10_preimage_not_verified_witness :
    goodStored dbW2 hashExt 1 extStored ∧
    sha256Model (List.replicate 32 4) ≠ hashExt ∧
    (AddInvoicePreimage dbW2 hashExt (List.replicate 32 4)).2 = .ok () ∧
    LookupInvoice (AddInvoicePreimage dbW2 hashExt (List.replicate 32 4)).1 hashExt =
      .ok { extStored with
        terms := { extStored.terms with paymentPreimage := List.replicate 32 4 } } ∧
    (AddInvoicePreimage dbW2 hashExt zeroHash).2 = .ok () ∧
    LookupInvoice (AddInvoicePreimage dbW2 hashExt zeroHash).1 hashExt = .ok extStored := by
  have h1 := c10_preimage_not_verified dbW2 hashExt 1 extStored (List.replicate 32 4)
    (by decide) (by decide) (by decide) (by decide)
  have h2 := c10_preimage_not_verified dbW2 hashExt 1 extStored zeroHash
    (by decide) (by decide) (by decide) (by decide)
  exact ⟨by decide, by decide, h1.1, h1.2.1, h2.1, h2.2.2 rfl⟩

/-- Auxiliary fact: when `getPaymentHash` succeeds on an external-preimage
invoice, the stored hash is non-zero. -/
theorem getPaymentHash_ok_hash (i : Invoice) (h : List Nat)
    (hok : getPaymentHash i = .ok h) :
    i.terms.externalPreimage = true → i.terms.paymentHash ≠ zeroHash := by
  intro hext hz
  rw [getPaymentHash] at hok
  simp [hext, hz] at hok

/-- Running the full add path on an invoice that validates, hashes to a
fresh hash, and serializes: the call succeeds, the new hash-index entry
points at the consumed invoice number, and the returned add index is the
incremented sequence. -/
theorem addInvoice_success (db : DB) (i : Invoice) (h : List Nat)
    (hv : validateInvoice i = .ok ())
    (hh : getPaymentHash i = .ok h)
    (habs : lookupA h db.hashIndex = none)
    (hcd : timeEncodable i.creationDate) (hsd : timeEncodable i.settleDate) :
    (AddInvoice db i).2 = .ok ((db.addIndexSeq + 1) % 2 ^ 64) ∧
    lookupA h (AddInvoice db i).1.hashIndex =
      some (match db.numInvoicesCounter with | none => 0 | some c => c) ∧
    (AddInvoice db i).1.addIndexSeq = (db.addIndexSeq + 1) % 2 ^ 64 := by
  have hser : serializeInvoice { i with addIndex := (db.addIndexSeq + 1) % 2 ^ 64 } =
      .ok (writeVarBytes i.memo ++ (writeVarBytes i.receipt ++
        (writeVarBytes i.paymentRequest ++
        (writeVarBytes (natToBytesBE 15 i.creationDate.val) ++
        (writeVarBytes (natToBytesBE 15 i.settleDate.val) ++
        (i.terms.paymentPreimage ++
        ((if i.terms.externalPreimage then i.terms.paymentHash else zeroHash) ++
        (natToBytesBE 8 i.terms.value ++ (boolByte i.terms.settled ++
        (natToBytesBE 8 ((db.addIndexSeq + 1) % 2 ^ 64) ++
        (natToBytesBE 8 i.settleIndex ++ (natToBytesBE 8 i.amtPaid ++
        boolByte i.terms.externalPreimage)))))))))))) :=
    serializeInvoice_eq _ hcd hsd (getPaymentHash_ok_hash i h hh)
  norm_num at hser
  cases hcnt : db.numInvoicesCounter with
  | none =>
    refine ⟨?_, ?_, ?_⟩ <;>
      simp [AddInvoice, putInvoice, hv, hh, habs, hcnt, hser, lookupA_putHash_self]
  | some c =>
    refine ⟨?_, ?_, ?_⟩ <;>
      simp [AddInvoice, putInvoice, hv, hh, habs, hcnt, hser, lookupA_putHash_self]

/-- C9: for two invoices with the same effective payment hash (and sizes
within the validation ceilings), adding the first to a ledger where the
hash is unindexed succeeds, and adding the second fails with
DuplicateInvoice regardless of any other field differences, leaving the
ledger exactly as it was after the first add. -/
theorem c9_duplicate_hash (db : DB) (i1 i2 : Invoice) (h : List Nat)
    (hv1 : validateInvoice i1 = .ok ()) (hv2 : validateInvoice i2 = .ok ())
    (hh1 : getPaymentHash i1 = .ok h) (hh2 : getPaymentHash i2 = .ok h)
    (habs : lookupA h db.hashIndex = none)
    (hcd : timeEncodable i1.creationDate) (hsd : timeEncodable i1.settleDate) :
    ∃ db1 n, AddInvoice db i1 = (db1, .ok n) ∧
      AddInvoice db1 i2 = (db1, .error .duplicateInvoice) := by
  obtain ⟨hadd, hidx, -⟩ := addInvoice_success db i1 h hv1 hh1 habs hcd hsd
  set db1 := (AddInvoice db i1).1 with hdb1
  refine ⟨db1, (db.addIndexSeq + 1) % 2 ^ 64, ?_, ?_⟩
  · have hsplit : AddInvoice db i1 = ((AddInvoice db i1).1, (AddInvoice db i1).2) := rfl
    rw [hsplit, hadd]
  · have hsome : (lookupA h db1.hashIndex).isSome = true := by
      rw [hidx]
      rfl
    simp [AddInvoice, hv2, hh2, hsome]

/-- Witness for C9: `testInvoiceLocal` and `testInvoiceLocal2` share the
preimage (hence the effective payment hash) but differ in memo and
value; the first add succeeds and the second is rejected as a duplicate
with the ledger unchanged. -/
theorem c9_duplicate_hash_witness :
    getPaymentHash testInvoiceLocal = .ok hashLocal ∧
    getPaymentHash testInvoiceLocal2 = .ok hashLocal ∧
    testInvoiceLocal2.memo ≠ testInvoiceLocal.memo ∧
    testInvoiceLocal2.terms.value ≠ testInvoiceLocal.terms.value ∧
    ∃ db1 n, AddInvoice emptyDB testInvoiceLocal = (db1, .ok n) ∧
      AddInvoice db1 testInvoiceLocal2 = (db1, .error .duplicateInvoice) := by
  refine ⟨by decide, by decide, by decide, by decide, ?_⟩
  exact c9_duplicate_hash emptyDB testInvoiceLocal testInvoiceLocal2 hashLocal
    (by decide) (by decide) (by decide) (by decide) (by decide) (by decide) (by decide)

theorem wfInvoice_settle (i : Invoice) (amt seq : Nat) (now : Time)
    (hwf : wfInvoice i) (hamt : amt < 2 ^ 64) (hseq : seq < 2 ^ 64)
    (hnow : timeEncodable now) :
    wfInvoice { i with
      amtPaid := amt,
      terms := { i.terms with settled := true },
      settleDate := now,
      settleIndex := seq } := by
  obtain ⟨h1, h2, h3, h4, h5, h6, h7, h8, h9, h10, -, -, h13, -⟩ := hwf
  exact ⟨h1, h2, h3, h4, h5, h6, h7, h8, h9, h10, hseq, hamt, h13, hnow⟩

theorem normalForm_settle (i : Invoice) (amt seq : Nat) (now : Time)
    (hnf : normalForm i) :
    normalForm { i with
      amtPaid := amt,
      terms := { i.terms with settled := true },
      settleDate := now,
      settleIndex := seq } :=
  ⟨hnf.1, hnf.2⟩

/-- Settling an already-settled stored invoice is a no-op returning the
stored record: no settle-sequence number is consumed, no index entry is
added, no record is rewritten. -/
theorem settle_already (db : DB) (h : List Nat) (num : Nat) (i : Invoice)
    (amt : Nat) (now : Time) (hg : goodStored db h num i)
    (hs : i.terms.settled = true) :
    (SettleInvoice db h amt now).2 = .ok i ∧
    (SettleInvoice db h amt now).1.invoices = db.invoices ∧
    (SettleInvoice db h amt now).1.settleIndexSeq = db.settleIndexSeq ∧
    (SettleInvoice db h amt now).1.settleIndexEntries = db.settleIndexEntries := by
  obtain ⟨hwf, hnf, hhash, hinv⟩ := hg
  have hfetch : fetchInvoice
      { db with
        invoiceBucketExists := true,
        invoiceIndexExists := true,
        settleIndexExists := true } num = .ok i :=
    fetch_of_stored _ num i hwf hnf hinv
  refine ⟨?_, ?_, ?_, ?_⟩ <;>
    simp [SettleInvoice, settleInvoiceTx, hhash, hfetch, hs]

/-- Settling an unsettled stored invoice consumes the next
settle-sequence number, maps it, and overwrites the record with the
settled version, which stays stored in good form. -/
theorem settle_fresh (db : DB) (h : List Nat) (num : Nat) (i : Invoice)
    (amt : Nat) (now : Time) (hg : goodStored db h num i)
    (hs : i.terms.settled = false) (hamt : amt < 2 ^ 64) (hnow : timeEncodable now) :
    (SettleInvoice db h amt now).2 =
      .ok { i with
        amtPaid := amt,
        terms := { i.terms with settled := true },
        settleDate := now,
        settleIndex := (db.settleIndexSeq + 1) % 2 ^ 64 } ∧
    (SettleInvoice db h amt now).1.settleIndexSeq = (db.settleIndexSeq + 1) % 2 ^ 64 ∧
    goodStored (SettleInvoice db h amt now).1 h num
      { i with
        amtPaid := amt,
        terms := { i.terms with settled := true },
        settleDate := now,
        settleIndex := (db.settleIndexSeq + 1) % 2 ^ 64 } := by
  obtain ⟨hwf, hnf, hhash, hinv⟩ := hg
  have hseq : (db.settleIndexSeq + 1) % 2 ^ 64 < 2 ^ 64 := Nat.mod_lt _ (by norm_num)
  have hwf' := wfInvoice_settle i amt ((db.settleIndexSeq + 1) % 2 ^ 64) now hwf hamt hseq hnow
  have hnf' := normalForm_settle i amt ((db.settleIndexSeq + 1) % 2 ^ 64) now hnf
  obtain ⟨bs', hser', hdes'⟩ := serialize_deserialize_roundtrip _ hwf' hnf'
  have hser2 := hser'
  norm_num at hser2
  have hfetch : fetchInvoice
      { db with
        invoiceBucketExists := true,
        invoiceIndexExists := true,
        settleIndexExists := true } num = .ok i :=
    fetch_of_stored _ num i hwf hnf hinv
  have hrun : SettleInvoice db h amt now =
      ({ db with
          invoiceBucketExists := true,
          invoiceIndexExists := true,
          settleIndexExists := true,
          settleIndexSeq := (db.settleIndexSeq + 1) % 2 ^ 64,
          settleIndexEntries :=
            insertSorted ((db.settleIndexSeq + 1) % 2 ^ 64) num db.settleIndexEntries,
          invoices := insertSorted num bs' db.invoices },
        .ok { i with
          amtPaid := amt,
          terms := { i.terms with settled := true },
          settleDate := now,
          settleIndex := (db.settleIndexSeq + 1) % 2 ^ 64 }) := by
    simp only [SettleInvoice, settleInvoiceTx, hhash, hfetch]
    simp [hs, hser2]
  refine ⟨by rw [hrun], by rw [hrun], ?_⟩
  rw [hrun]
  exact ⟨hwf', hnf', hhash,
    by simp [lookupA_insertSorted_self, hser2, Except.toOption]⟩

/-- C5: SettleInvoice is idempotent after the first success — settling an
already-settled stored invoice returns the stored record unchanged,
assigning no settle-sequence number and touching neither amtPaid,
settleDate, settleIndex nor the stored record; settling an unsettled
invoice succeeds once, and the second call (with any amount and
timestamp) returns the identical settled record while consuming exactly
one settle-sequence number in total. -/
theorem c5_settle_idempotent (db : DB) (h : List Nat) (num : Nat) (i : Invoice)
    (amt amt2 : Nat) (now now2 : Time)
    (hg : goodStored db h num i) (hamt : amt < 2 ^ 64) (hnow : timeEncodable now) :
    (i.terms.settled = true →
      (SettleInvoice db h amt now).2 = .ok i ∧
      (SettleInvoice db h amt now).1.invoices = db.invoices ∧
      (SettleInvoice db h amt now).1.settleIndexSeq = db.settleIndexSeq ∧
      (SettleInvoice db h amt now).1.settleIndexEntries = db.settleIndexEntries) ∧
    (i.terms.settled = false →
      (SettleInvoice db h amt now).2 =
        .ok { i with
          amtPaid := amt,
          terms := { i.terms with settled := true },
          settleDate := now,
          settleIndex := (db.settleIndexSeq + 1) % 2 ^ 64 } ∧
      (SettleInvoice db h amt now).1.settleIndexSeq = (db.settleIndexSeq + 1) % 2 ^ 64 ∧
      (SettleInvoice (SettleInvoice db h amt now).1 h amt2 now2).2 =
        .ok { i with
          amtPaid := amt,
          terms := { i.terms with settled := true },
          settleDate := now,
          settleIndex := (db.settleIndexSeq + 1) % 2 ^ 64 } ∧
      (SettleInvoice (SettleInvoice db h amt now).1 h amt2 now2).1.settleIndexSeq =
        (SettleInvoice db h amt now).1.settleIndexSeq ∧
      (SettleInvoice (SettleInvoice db h amt now).1 h amt2 now2).1.invoices =
        (SettleInvoice db h amt now).1.invoices ∧
      (SettleInvoice (SettleInvoice db h amt now).1 h amt2 now2).1.settleIndexEntries =
        (SettleInvoice db h amt now).1.settleIndexEntries) := by
  refine ⟨fun hs => settle_already db h num i amt now hg hs, fun hs => ?_⟩
  obtain ⟨h1, h2, hgood⟩ := settle_fresh db h num i amt now hg hs hamt hnow
  have hsecond := settle_already (SettleInvoice db h amt now).1 h num _ amt2 now2 hgood rfl
  exact ⟨h1, h2, hsecond.1, hsecond.2.2.1, hsecond.2.1, hsecond.2.2.2⟩

/-- Witness for C5 on the concrete two-invoice ledger: settling the local
invoice assigns settle index 1, and the repeated call with a different
amount and timestamp returns the same settled record without consuming a
second settle-sequence number. -/
theorem c5_settle_idempotent_witness :
    goodStored dbW2 hashLocal 0 localStored ∧
    localStored.terms.settled = false ∧
    (SettleInvoice dbW2 hashLocal 10000 ⟨50⟩).2 =
      .ok { localStored with
        amtPaid := 10000,
        terms := { localStored.terms with settled := true },
        settleDate := ⟨50⟩,
        settleIndex := (dbW2.settleIndexSeq + 1) % 2 ^ 64 } ∧
    (SettleInvoice dbW2 hashLocal 10000 ⟨50⟩).1.settleIndexSeq =
      (dbW2.settleIndexSeq + 1) % 2 ^ 64 ∧
    (SettleInvoice (SettleInvoice dbW2 hashLocal 10000 ⟨50⟩).1 hashLocal 777 ⟨60⟩).2 =
      .ok { localStored with
        amtPaid := 10000,
        terms := { localStored.terms with settled := true },
        settleDate := ⟨50⟩,
        settleIndex := (dbW2.settleIndexSeq + 1) % 2 ^ 64 } ∧
    (SettleInvoice (SettleInvoice dbW2 hashLocal 10000 ⟨50⟩).1 hashLocal 777 ⟨60⟩).1.settleIndexSeq =
      (SettleInvoice dbW2 hashLocal 10000 ⟨50⟩).1.settleIndexSeq := by
  have hc := c5_settle_idempotent dbW2 hashLocal 0 localStored 10000 777 ⟨50⟩ ⟨60⟩
    (by decide) (by decide) (by decide)
  obtain ⟨ha, hb, hcall2, hd, -, -⟩ := hc.2 (by decide)
  exact ⟨by decide, by decide, ha, hb, hcall2, hd⟩

theorem range'_succ_eq (s m : Nat) :
    List.range' s (m + 1) = s :: List.range' (s + 1) m := rfl

theorem range'_mem_ge (s n x : Nat) (hx : x ∈ List.range' s n) : s ≤ x := by
  induction n generalizing s with
  | zero => simp [List.range'] at hx
  | succ m ih =>
    rw [range'_succ_eq] at hx
    rcases List.mem_cons.mp hx with h | h
    · omega
    · have := ih (s + 1) h
      omega

theorem range'_pairwise_lt (s n : Nat) :
    List.Pairwise (· < ·) (List.range' s n) := by
  induction n generalizing s with
  | zero => simp [List.range']
  | succ m ih =>
    rw [range'_succ_eq]
    exact List.Pairwise.cons
      (fun x hx => Nat.lt_of_lt_of_le (Nat.lt_succ_self s) (range'_mem_ge (s + 1) m x hx))
      (ih (s + 1))

theorem takeWhile_of_all {α : Type} (p : α → Bool) (l : List α)
    (h : ∀ x ∈ l, p x = true) : l.takeWhile p = l := by
  induction l with
  | nil => rfl
  | cons e rest ih =>
    rw [List.takeWhile_cons, h e (by simp)]
    simp [ih (fun x hx => h x (by simp [hx]))]

theorem filter_of_all {α : Type} (p : α → Bool) (l : List α)
    (h : ∀ x ∈ l, p x = true) : l.filter p = l := by
  induction l with
  | nil => rfl
  | cons e rest ih =>
    rw [List.filter_cons, h e (by simp)]
    simp [ih (fun x hx => h x (by simp [hx]))]

/-- The "Seek, skip one, collect while above" cursor walk of the
since-scans visits exactly the entries with keys strictly above the
since-index, provided the keys are the gapless range reaching down to
the bucket's first sequence number. -/
theorem sinceWalk_filter (entries : List (Nat × Nat)) (a N k : Nat)
    (hkeys : entries.map Prod.fst = List.range' a N) (hak : a ≤ k) :
    ((seekFrom k entries).drop 1).takeWhile (fun e => k < e.1) =
      entries.filter (fun e => k < e.1) := by
  induction entries generalizing a N with
  | nil => rfl
  | cons e rest ih =>
    cases N with
    | zero => simp [List.range'] at hkeys
    | succ m =>
      rw [range'_succ_eq, List.map_cons] at hkeys
      have hea : e.1 = a := (List.cons.injEq _ _ _ _ ▸ hkeys).1
      have hrest : rest.map Prod.fst = List.range' (a + 1) m :=
        (List.cons.injEq _ _ _ _ ▸ hkeys).2
      rcases Nat.eq_or_lt_of_le hak with hak' | hak'
      · -- the since-index is the head key: skip it, keep all that follow
        subst hak'
        have hsf : seekFrom a (e :: rest) = e :: rest := by
          rw [seekFrom]
          simp [hea]
        have hgt : ∀ x ∈ rest, (decide (a < x.1)) = true := by
          intro x hx
          have : a + 1 ≤ x.1 :=
            range'_mem_ge (a + 1) m x.1 (hrest ▸ List.mem_map_of_mem Prod.fst hx)
          simp
          omega
        rw [hsf]
        simp only [List.drop_one, List.tail_cons]
        rw [takeWhile_of_all _ rest hgt]
        rw [List.filter_cons]
        simp [hea, filter_of_all _ rest hgt]
      · -- the head key is below the since-index: both sides drop it
        have hlt : e.1 < k := by omega
        have hsf : seekFrom k (e :: rest) = seekFrom k rest := by
          rw [seekFrom]
          simp
          omega
        rw [hsf, ih (a + 1) m hrest (by omega), List.filter_cons]
        have : ¬ (k < e.1) := by omega
        simp [this]

theorem toOption_ok {ε α : Type} (a : α) :
    (Except.ok a : Except ε α).toOption = some a := rfl

theorem except_toOption_eq_some {ε α : Type} (x : Except ε α) (a : α) :
    x.toOption = some a ↔ x = .ok a := by
  cases x <;> simp [Except.toOption]

theorem fetchInvoices_of_all (db : DB) (l : List (Nat × Nat))
    (hall : ∀ e ∈ l, ∃ j, fetchInvoice db e.2 = .ok j) :
    fetchInvoices db l =
      .ok (l.filterMap (fun e => (fetchInvoice db e.2).toOption)) := by
  induction l with
  | nil => rfl
  | cons e rest ih =>
    obtain ⟨j, hj⟩ := hall e (by simp)
    rw [fetchInvoices, hj, ih (fun x hx => hall x (by simp [hx]))]
    simp [List.filterMap_cons, hj, Except.toOption]

/-- Executable form of "the stored record behind this index entry decodes
and its projected sequence field equals the entry key". -/
def fetchMatches (db : DB) (proj : Invoice → Nat) (e : Nat × Nat) : Bool :=
  match fetchInvoice db e.2 with
  | .ok j => proj j == e.1
  | .error _ => false

theorem fetchMatches_ok (db : DB) (proj : Invoice → Nat) (e : Nat × Nat)
    (h : fetchMatches db proj e = true) :
    ∃ j, fetchInvoice db e.2 = .ok j ∧ proj j = e.1 := by
  cases hf : fetchInvoice db e.2 with
  | ok j =>
    refine ⟨j, rfl, ?_⟩
    have h' := h
    simp [fetchMatches, hf] at h'
    exact h'
  | error er =>
    exfalso
    simp [fetchMatches, hf] at h

theorem filterMap_fetch_map_proj (db : DB) (proj : Invoice → Nat)
    (l : List (Nat × Nat))
    (hall : ∀ e ∈ l, fetchMatches db proj e = true) :
    (l.filterMap (fun e => (fetchInvoice db e.2).toOption)).map proj =
      l.map Prod.fst := by
  induction l with
  | nil => rfl
  | cons e rest ih =>
    obtain ⟨j, hj, hpj⟩ := fetchMatches_ok db proj e (hall e (by simp))
    rw [List.filterMap_cons]
    simp only [hj, toOption_ok]
    simp [hpj, ih (fun x hx => hall x (by simp [hx]))]

/-- The shared since-scan body returns exactly the invoices behind the
entries with keys strictly above the since-index, in bucket order. -/
theorem scanSinceEntries_eq (db : DB) (entries : List (Nat × Nat)) (k N : Nat)
    (proj : Invoice → Nat)
    (hkeys : entries.map Prod.fst = List.range' 1 N) (hk : 0 < k)
    (hall : ∀ e ∈ entries, fetchMatches db proj e = true) :
    scanSinceEntries db entries k =
      .ok ((entries.filter (fun e => k < e.1)).filterMap
        (fun e => (fetchInvoice db e.2).toOption)) := by
  rw [scanSinceEntries, sinceWalk_filter entries 1 N k hkeys hk]
  refine fetchInvoices_of_all db _ (fun e he => ?_)
  obtain ⟨j, hj, -⟩ := fetchMatches_ok db proj e (hall e (List.mem_of_mem_filter he))
  exact ⟨j, hj⟩

theorem lookupA_mem_keys {α β : Type} [DecidableEq α] (k : α) (v : β)
    (l : List (α × β)) (h : lookupA k l = some v) : k ∈ l.map Prod.fst := by
  induction l with
  | nil => simp [lookupA] at h
  | cons e rest ih =>
    cases e with
    | mk k' v' =>
      by_cases hk : k = k'
      · simp [hk]
      · have h' : lookupA k rest = some v := by simpa [lookupA, hk] using h
        simp [ih h']

theorem lookupA_mem_pair {α β : Type} [DecidableEq α] (k : α) (v : β)
    (l : List (α × β)) (h : lookupA k l = some v) : (k, v) ∈ l := by
  induction l with
  | nil => simp [lookupA] at h
  | cons e rest ih =>
    cases e with
    | mk k' v' =>
      by_cases hk : k = k'
      · subst hk
        have hv : v' = v := by simpa [lookupA] using h
        subst hv
        simp
      · have h' : lookupA k rest = some v := by simpa [lookupA, hk] using h
        simp [ih h']

/-- Executable form of "if this stored record decodes to an invoice with
a positive settle index, its primary key appears in the settle index". -/
def settledCovered (db : DB) (ebs : Nat × List Nat) : Bool :=
  match deserializeInvoice ebs.2 with
  | .ok j => decide (j.settleIndex = 0) || decide (ebs.1 ∈ db.settleIndexEntries.map Prod.snd)
  | .error _ => true

theorem settledCovered_mem (db : DB) (num : Nat) (bs : List Nat) (j : Invoice)
    (hc : settledCovered db (num, bs) = true)
    (hdes : deserializeInvoice bs = .ok j) (hpos : 0 < j.settleIndex) :
    num ∈ db.settleIndexEntries.map Prod.snd := by
  simp [settledCovered, hdes] at hc
  rcases hc with h0 | hm
  · omega
  · obtain ⟨a, ha⟩ := hm
    exact List.mem_map.mpr ⟨(a, num), ha, rfl⟩

/-- The ledger stored after settling the local invoice of `dbW2`. -/
def dbS : DB := (SettleInvoice dbW2 hashLocal 10000 ⟨50⟩).1

/-- The ledger stored after settling both invoices of `dbW2`. -/
def dbS2 : DB := (SettleInvoice dbS hashExt 5 ⟨70⟩).1

/-- C7: both since-scans have strictly-greater-than semantics with the
zero sentinel — `InvoicesAddedSince 0` and `InvoicesSettledSince 0`
return an empty sequence unconditionally; for `k > 0`, on a ledger whose
add index is the gapless range `1..N`, whose entries decode with
matching add indices, and whose every stored invoice appears in the add
index, `InvoicesAddedSince k` returns exactly the stored invoices whose
add index is strictly greater than `k`, in ascending add-index order;
and analogously, on a ledger whose settle index is gapless, decodes with
matching settle indices, and covers every stored invoice with a positive
settle index, `InvoicesSettledSince k` returns exactly the stored
invoices whose settle index is strictly greater than `k`, in ascending
settle-index order. -/
theorem c7_since_scans :
    (∀ db, InvoicesAddedSince db 0 = .ok []) ∧
    (∀ db, InvoicesSettledSince db 0 = .ok []) ∧
    (∀ db N k, 0 < k → db.invoiceBucketExists = true → db.addIndexExists = true →
      db.addIndexEntries.map Prod.fst = List.range' 1 N →
      (∀ e ∈ db.addIndexEntries, fetchMatches db Invoice.addIndex e = true) →
      (∀ num ∈ db.invoices.map Prod.fst, num ∈ db.addIndexEntries.map Prod.snd) →
      ∃ l, InvoicesAddedSince db k = .ok l ∧
        (∀ j, j ∈ l ↔ ∃ num bs, lookupA num db.invoices = some bs ∧
          deserializeInvoice bs = .ok j ∧ k < j.addIndex) ∧
        List.Pairwise (· < ·) (l.map Invoice.addIndex)) ∧
    (∀ db N k, 0 < k → db.invoiceBucketExists = true → db.settleIndexExists = true →
      db.settleIndexEntries.map Prod.fst = List.range' 1 N →
      (∀ e ∈ db.settleIndexEntries, fetchMatches db Invoice.settleIndex e = true) →
      (∀ ebs ∈ db.invoices, settledCovered db ebs = true) →
      ∃ l, InvoicesSettledSince db k = .ok l ∧
        (∀ j, j ∈ l ↔ ∃ num bs, lookupA num db.invoices = some bs ∧
          deserializeInvoice bs = .ok j ∧ k < j.settleIndex) ∧
        List.Pairwise (· < ·) (l.map Invoice.settleIndex)) := by
  refine ⟨fun db => by simp [InvoicesAddedSince],
          fun db => by simp [InvoicesSettledSince], ?_, ?_⟩
  · intro db N k hk hb ha hkeys hall hcomp
    have hk' : k ≠ 0 := by omega
    have hscan := scanSinceEntries_eq db db.addIndexEntries k N Invoice.addIndex
      hkeys hk hall
    refine ⟨(db.addIndexEntries.filter (fun e => decide (k < e.1))).filterMap
        (fun e => (fetchInvoice db e.2).toOption),
      by simp [InvoicesAddedSince, hk', hb, ha, hscan], ?_, ?_⟩
    · intro j
      constructor
      · intro hj
        obtain ⟨e, hef, hee⟩ := List.mem_filterMap.mp hj
        have hmem := List.mem_of_mem_filter hef
        have hgt : k < e.1 := by simpa using List.of_mem_filter hef
        have hfe : fetchInvoice db e.2 = .ok j := (except_toOption_eq_some _ _).mp hee
        obtain ⟨j', hj', hpj'⟩ := fetchMatches_ok db Invoice.addIndex e (hall e hmem)
        have hjj : j' = j := by
          rw [hfe] at hj'
          exact (Except.ok.inj hj').symm
        subst hjj
        rw [fetchInvoice] at hfe
        cases hlk : lookupA e.2 db.invoices with
        | none => rw [hlk] at hfe; cases hfe
        | some bs =>
          rw [hlk] at hfe
          exact ⟨e.2, bs, hlk, hfe, by rw [hpj']; exact hgt⟩
      · rintro ⟨num, bs, hlk, hdes, hgt⟩
        have hnum := lookupA_mem_keys num bs db.invoices hlk
        obtain ⟨e, hemem, he2⟩ := List.mem_map.mp (hcomp num hnum)
        obtain ⟨j', hj', hpj'⟩ := fetchMatches_ok db Invoice.addIndex e (hall e hemem)
        have hfe : fetchInvoice db e.2 = .ok j := by
          rw [fetchInvoice, he2, hlk]
          exact hdes
        have hjj : j' = j := by
          rw [hfe] at hj'
          exact (Except.ok.inj hj').symm
        subst hjj
        apply List.mem_filterMap.mpr
        refine ⟨e, List.mem_filter.mpr ⟨hemem, ?_⟩, by rw [hfe]; rfl⟩
        rw [← hpj']
        simpa using hgt
    · have hallf : ∀ e ∈ db.addIndexEntries.filter (fun e => decide (k < e.1)),
          fetchMatches db Invoice.addIndex e = true :=
        fun e he => hall e (List.mem_of_mem_filter he)
      rw [filterMap_fetch_map_proj db Invoice.addIndex _ hallf]
      have hsub : List.Sublist
          ((db.addIndexEntries.filter (fun e => decide (k < e.1))).map Prod.fst)
          (db.addIndexEntries.map Prod.fst) :=
        (List.filter_sublist _).map Prod.fst
      rw [hkeys] at hsub
      exact (range'_pairwise_lt 1 N).sublist hsub
  · intro db N k hk hb hsx hkeys hall hcov
    have hk' : k ≠ 0 := by omega
    have hscan := scanSinceEntries_eq db db.settleIndexEntries k N Invoice.settleIndex
      hkeys hk hall
    refine ⟨(db.settleIndexEntries.filter (fun e => decide (k < e.1))).filterMap
        (fun e => (fetchInvoice db e.2).toOption),
      by simp [InvoicesSettledSince, hk', hb, hsx, hscan], ?_, ?_⟩
    · intro j
      constructor
      · intro hj
        obtain ⟨e, hef, hee⟩ := List.mem_filterMap.mp hj
        have hmem := List.mem_of_mem_filter hef
        have hgt : k < e.1 := by simpa using List.of_mem_filter hef
        have hfe : fetchInvoice db e.2 = .ok j := (except_toOption_eq_some _ _).mp hee
        obtain ⟨j', hj', hpj'⟩ := fetchMatches_ok db Invoice.settleIndex e (hall e hmem)
        have hjj : j' = j := by
          rw [hfe] at hj'
          exact (Except.ok.inj hj').symm
        subst hjj
        rw [fetchInvoice] at hfe
        cases hlk : lookupA e.2 db.invoices with
        | none => rw [hlk] at hfe; cases hfe
        | some bs =>
          rw [hlk] at hfe
          exact ⟨e.2, bs, hlk, hfe, by rw [hpj']; exact hgt⟩
      · rintro ⟨num, bs, hlk, hdes, hgt⟩
        have hpair := lookupA_mem_pair num bs db.invoices hlk
        have hmem : num ∈ db.settleIndexEntries.map Prod.snd :=
          settledCovered_mem db num bs j (hcov (num, bs) hpair) hdes (by omega)
        obtain ⟨e, hemem, he2⟩ := List.mem_map.mp hmem
        obtain ⟨j', hj', hpj'⟩ := fetchMatches_ok db Invoice.settleIndex e (hall e hemem)
        have hfe : fetchInvoice db e.2 = .ok j := by
          rw [fetchInvoice, he2, hlk]
          exact hdes
        have hjj : j' = j := by
          rw [hfe] at hj'
          exact (Except.ok.inj hj').symm
        subst hjj
        apply List.mem_filterMap.mpr
        refine ⟨e, List.mem_filter.mpr ⟨hemem, ?_⟩, by rw [hfe]; rfl⟩
        rw [← hpj']
        simpa using hgt
    · have hallf : ∀ e ∈ db.settleIndexEntries.filter (fun e => decide (k < e.1)),
          fetchMatches db Invoice.settleIndex e = true :=
        fun e he => hall e (List.mem_of_mem_filter he)
      rw [filterMap_fetch_map_proj db Invoice.settleIndex _ hallf]
      have hsub : List.Sublist
          ((db.settleIndexEntries.filter (fun e => decide (k < e.1))).map Prod.fst)
          (db.settleIndexEntries.map Prod.fst) :=
        (List.filter_sublist _).map Prod.fst
      rw [hkeys] at hsub
      exact (range'_pairwise_lt 1 N).sublist hsub

/-- Witness for C7 on the two-invoice ledger (add side) and on the
ledger with one settled invoice (settle side). -/
theorem c7_since_scans_witness :
    InvoicesAddedSince dbW2 0 = .ok [] ∧
    InvoicesSettledSince dbW2 0 = .ok [] ∧
    InvoicesAddedSince dbW2 1 = .ok [extStored] ∧
    (∃ l, InvoicesAddedSince dbW2 1 = .ok l ∧
      (∀ j, j ∈ l ↔ ∃ num bs, lookupA num dbW2.invoices = some bs ∧
        deserializeInvoice bs = .ok j ∧ 1 < j.addIndex) ∧
      List.Pairwise (· < ·) (l.map Invoice.addIndex)) ∧
    InvoicesSettledSince dbS2 1 =
      .ok [{ extStored with
        amtPaid := 5,
        terms := { extStored.terms with settled := true },
        settleDate := ⟨70⟩,
        settleIndex := 2 }] ∧
    (∃ l, InvoicesSettledSince dbS2 1 = .ok l ∧
      (∀ j, j ∈ l ↔ ∃ num bs, lookupA num dbS2.invoices = some bs ∧
        deserializeInvoice bs = .ok j ∧ 1 < j.settleIndex) ∧
      List.Pairwise (· < ·) (l.map Invoice.settleIndex)) := by
  refine ⟨c7_since_scans.1 dbW2, c7_since_scans.2.1 dbW2, by decide, ?_, by decide, ?_⟩
  · exact c7_since_scans.2.2.1 dbW2 2 1 (by decide) (by decide) (by decide)
      (by decide) (by decide) (by decide)
  · exact c7_since_scans.2.2.2 dbS2 2 1 (by decide) (by decide) (by decide)
      (by decide) (by decide) (by decide)

theorem seekFrom_all_ge (t : Nat) (l : List (Nat × Nat))
    (h : ∀ x ∈ l, t ≤ x.1) : seekFrom t l = l := by
  cases l with
  | nil => rfl
  | cons e rest =>
    rw [seekFrom, if_pos (h e (by simp))]

theorem seekFrom_sublist (t : Nat) (l : List (Nat × Nat)) :
    List.Sublist (seekFrom t l) l := by
  induction l with
  | nil => simp [seekFrom]
  | cons e rest ih =>
    rw [seekFrom]
    by_cases h : t ≤ e.1
    · simp [h]
    · rw [if_neg h]
      exact ih.cons e

theorem seekBack_sublist_reverse (t : Nat) (l : List (Nat × Nat)) :
    List.Sublist (seekBack t l) l.reverse := by
  induction l with
  | nil => simp [seekBack]
  | cons e rest ih =>
    rw [seekBack, List.reverse_cons]
    by_cases h : t ≤ e.1
    · rw [if_pos h]
      exact List.sublist_append_right rest.reverse [e]
    · rw [if_neg h]
      cases hsb : seekBack t rest with
      | nil => simp
      | cons x xs =>
        rw [hsb] at ih
        exact ih.append (List.Sublist.refl [e])

theorem seekBack_map (entries : List (Nat × Nat)) :
    ∀ a N t, entries.map Prod.fst = List.range' a N → a ≤ t → t < a + N →
    (seekBack t entries).map Prod.fst = (List.range' a (t - a + 1)).reverse := by
  induction entries with
  | nil =>
    intro a N t hkeys hat htN
    simp [List.range'] at hkeys
    omega
  | cons e rest ih =>
    intro a N t hkeys hat htN
    cases N with
    | zero => omega
    | succ m =>
      rw [range'_succ_eq, List.map_cons] at hkeys
      have hea : e.1 = a := (List.cons.injEq _ _ _ _ ▸ hkeys).1
      have hrest : rest.map Prod.fst = List.range' (a + 1) m :=
        (List.cons.injEq _ _ _ _ ▸ hkeys).2
      rcases Nat.eq_or_lt_of_le hat with hat' | hat'
      · subst hat'
        rw [seekBack, if_pos (by omega)]
        simp [hea, range'_succ_eq]
      · have hrec := ih (a + 1) m t hrest (by omega) (by omega)
        rw [seekBack, if_neg (by omega)]
        cases hsb : seekBack t rest with
        | nil =>
          rw [hsb] at hrec
          have : t - (a + 1) + 1 = t - a := by omega
          rw [this] at hrec
          have hlen : (0 : Nat) = t - a := by
            have := congrArg List.length hrec
            simpa using this
          omega
        | cons x xs =>
          rw [hsb] at hrec
          have hta : t - a + 1 = (t - a - 1 + 1) + 1 := by omega
          rw [hta, range'_succ_eq, List.reverse_cons, List.map_append, hrec]
          have : t - (a + 1) + 1 = t - a - 1 + 1 := by omega
          rw [this]
          simp [hea]

/-- The per-entry fetch-and-filter step of the query collection loop. -/
def collectF (db : DB) (pendingOnly : Bool) (e : Nat × Nat) : Option Invoice :=
  match fetchInvoice db e.2 with
  | .ok j => if pendingOnly && j.terms.settled then none else some j
  | .error _ => none

theorem collectKeys_full (db : DB) (p : Bool) (l : List (Nat × Nat)) :
    ∀ cap, (∀ e ∈ l, ∃ j, fetchInvoice db e.2 = .ok j) → l.length ≤ cap →
    collectKeys db p cap l = .ok (l.filterMap (collectF db p)) := by
  induction l with
  | nil =>
    intro cap hall hcap
    cases cap <;> rfl
  | cons e rest ih =>
    intro cap hall hcap
    obtain ⟨j, hj⟩ := hall e (by simp)
    have hrest : ∀ x ∈ rest, ∃ j, fetchInvoice db x.2 = .ok j :=
      fun x hx => hall x (by simp [hx])
    cases cap with
    | zero => simp at hcap
    | succ c =>
      have hr1 : rest.length ≤ c + 1 := by simp at hcap; omega
      have hr0 : rest.length ≤ c := by simp at hcap; omega
      by_cases hps : (p && j.terms.settled) = true
      · simp only [collectKeys, hj, hps, List.filterMap_cons, collectF, if_pos hps]
        exact ih (c + 1) hrest hr1
      · simp only [collectKeys, hj, hps, List.filterMap_cons, collectF, if_neg hps]
        rw [ih c hrest hr0]
        simp [hps]

theorem collectKeys_sublist (db : DB) (p : Bool) (l : List (Nat × Nat)) :
    ∀ cap, (∀ e ∈ l, fetchMatches db Invoice.addIndex e = true) →
    ∃ res, collectKeys db p cap l = .ok res ∧
      List.Sublist (res.map Invoice.addIndex) (l.map Prod.fst) := by
  induction l with
  | nil =>
    intro cap hall
    exact ⟨[], by cases cap <;> rfl, by simp⟩
  | cons e rest ih =>
    intro cap hall
    obtain ⟨j, hj, hpj⟩ := fetchMatches_ok db Invoice.addIndex e (hall e (by simp))
    have hrest : ∀ x ∈ rest, fetchMatches db Invoice.addIndex x = true :=
      fun x hx => hall x (by simp [hx])
    cases cap with
    | zero => exact ⟨[], rfl, by simp⟩
    | succ c =>
      by_cases hps : (p && j.terms.settled) = true
      · obtain ⟨res, hres, hsub⟩ := ih (c + 1) hrest
        refine ⟨res, ?_, hsub.cons e.1⟩
        simp only [collectKeys, hj, if_pos hps]
        exact hres
      · obtain ⟨res, hres, hsub⟩ := ih c hrest
        refine ⟨j :: res, ?_, ?_⟩
        · simp only [collectKeys, hj, if_neg hps]
          rw [hres]
        · rw [List.map_cons, List.map_cons, hpj]
          exact hsub.cons₂ e.1

theorem queryWalk_mem (db : DB) (q : InvoiceQuery) (e : Nat × Nat)
    (he : e ∈ queryWalk db q) : e ∈ db.addIndexEntries := by
  rw [queryWalk] at he
  by_cases hr : q.reversed = true
  · rw [if_pos hr] at he
    cases ho : q.indexOffset with
    | zero =>
      rw [ho] at he
      exact List.mem_reverse.mp he
    | succ o =>
      cases o with
      | zero => rw [ho] at he; cases he
      | succ o' =>
        rw [ho] at he
        exact List.mem_reverse.mp ((seekBack_sublist_reverse (o' + 1) _).subset he)
  · rw [if_neg hr] at he
    exact (seekFrom_sublist _ _).subset he

theorem queryWalk_sublist_reversed (db : DB) (q : InvoiceQuery)
    (hr : q.reversed = true) :
    List.Sublist (queryWalk db q) db.addIndexEntries.reverse := by
  rw [queryWalk, if_pos hr]
  cases ho : q.indexOffset with
  | zero => exact List.Sublist.refl _
  | succ o =>
    cases o with
    | zero => exact List.nil_sublist _
    | succ o' => exact seekBack_sublist_reverse (o' + 1) _

theorem queryWalk_sublist_forward (db : DB) (q : InvoiceQuery)
    (hr : q.reversed = false) :
    List.Sublist (queryWalk db q) db.addIndexEntries := by
  rw [queryWalk, hr]
  simp only [Bool.false_eq_true, if_false]
  exact seekFrom_sublist _ _

theorem QueryInvoices_no_bucket (db : DB) (q : InvoiceQuery)
    (hb : db.invoiceBucketExists = false) :
    QueryInvoices db q = .ok (mkSlice q []) := by
  simp [QueryInvoices, hb]

theorem QueryInvoices_no_addIndex (db : DB) (q : InvoiceQuery)
    (ha : db.addIndexExists = false) :
    QueryInvoices db q = .ok (mkSlice q []) := by
  by_cases hb : db.invoiceBucketExists = false <;> simp [QueryInvoices, hb, ha]

/-- C6: reversed pagination of QueryInvoices — with offset 1 the response
is empty immediately; with offset 0 the cursor walk starts at the
highest add-index entry and proceeds descending; with offset above 1 the
walk starts at add-index offset−1 and proceeds descending; in every mode
the returned slice is in ascending add-index order; and a reversed query
over all N invoices at offset 0 returns the same ascending sequence as
the corresponding forward query. -/
theorem c6_query_pagination :
    (∀ db q, q.reversed = true → q.indexOffset = 1 →
      QueryInvoices db q = .ok (mkSlice q [])) ∧
    (∀ db q, q.reversed = true → q.indexOffset = 0 →
      queryWalk db q = db.addIndexEntries.reverse) ∧
    (∀ db q N, q.reversed = true → 2 ≤ q.indexOffset → q.indexOffset - 1 ≤ N →
      db.addIndexEntries.map Prod.fst = List.range' 1 N →
      (queryWalk db q).map Prod.fst =
        (List.range' 1 (q.indexOffset - 1)).reverse) ∧
    (∀ db q N slice, db.addIndexEntries.map Prod.fst = List.range' 1 N →
      (∀ e ∈ db.addIndexEntries, fetchMatches db Invoice.addIndex e = true) →
      QueryInvoices db q = .ok slice →
      List.Pairwise (· < ·) (slice.invoices.map Invoice.addIndex)) ∧
    (∀ db N M p, db.invoiceBucketExists = true → db.addIndexExists = true →
      db.addIndexEntries.map Prod.fst = List.range' 1 N →
      (∀ e ∈ db.addIndexEntries, fetchMatches db Invoice.addIndex e = true) →
      N ≤ M →
      ∃ l, QueryInvoices db ⟨0, M, p, true⟩ = .ok (mkSlice ⟨0, M, p, true⟩ l) ∧
        QueryInvoices db ⟨0, M, p, false⟩ = .ok (mkSlice ⟨0, M, p, false⟩ l)) := by
  refine ⟨?_, ?_, ?_, ?_, ?_⟩
  · intro db q hr ho
    by_cases hb : db.invoiceBucketExists = false
    · simp [QueryInvoices, hb]
    · by_cases ha : db.addIndexExists = false
      · simp [QueryInvoices, hb, ha]
      · simp [QueryInvoices, hb, ha, hr, ho]
  · intro db q hr ho
    simp [queryWalk, hr, ho]
  · intro db q N hr ho2 hoN hkeys
    obtain ⟨o, hoe⟩ : ∃ o, q.indexOffset = o + 2 := ⟨q.indexOffset - 2, by omega⟩
    rw [queryWalk, if_pos hr, hoe]
    have hmap := seekBack_map db.addIndexEntries 1 N (o + 1) hkeys (by omega)
      (by omega)
    have h1 : o + 1 - 1 + 1 = o + 1 := by omega
    have h2 : o + 2 - 1 = o + 1 := by omega
    rw [h1] at hmap
    rw [h2]
    exact hmap
  · intro db q N slice hkeys hall hq
    by_cases hb : db.invoiceBucketExists = false
    · rw [QueryInvoices_no_bucket db q hb] at hq
      rw [← Except.ok.inj hq]
      simp [mkSlice]
    · by_cases ha : db.addIndexExists = false
      · rw [QueryInvoices_no_addIndex db q ha] at hq
        rw [← Except.ok.inj hq]
        simp [mkSlice]
      · by_cases hro : q.reversed = true ∧ q.indexOffset = 1
        · simp only [QueryInvoices, hb, ha, hro] at hq
          simp at hq
          rw [← hq]
          simp [mkSlice]
        · obtain ⟨res, hres, hsub⟩ := collectKeys_sublist db q.pendingOnly
            (queryWalk db q) q.numMaxInvoices
            (fun e he => hall e (queryWalk_mem db q e he))
          have hbody : QueryInvoices db q =
              .ok (mkSlice q (if q.reversed then res.reverse else res)) := by
            simp [QueryInvoices, hb, ha, hro, hres]
          rw [hbody] at hq
          rw [← Except.ok.inj hq]
          simp only [mkSlice]
          by_cases hr : q.reversed = true
          · simp only [hr, if_true]
            rw [List.map_reverse, List.pairwise_reverse]
            have h1 : List.Sublist ((queryWalk db q).map Prod.fst)
                ((db.addIndexEntries.map Prod.fst).reverse) := by
              rw [← List.map_reverse]
              exact (queryWalk_sublist_reversed db q hr).map Prod.fst
            have h2 := hsub.trans h1
            rw [hkeys] at h2
            have hpr : List.Pairwise (flip (· < ·)) ((List.range' 1 N).reverse) :=
              List.pairwise_reverse.mpr (range'_pairwise_lt 1 N)
            exact hpr.sublist h2
          · have hrf : q.reversed = false := by
              revert hr
              cases q.reversed <;> simp
            simp only [hrf, Bool.false_eq_true, if_false]
            have h1 : List.Sublist ((queryWalk db q).map Prod.fst)
                (db.addIndexEntries.map Prod.fst) :=
              (queryWalk_sublist_forward db q hrf).map Prod.fst
            have h2 := hsub.trans h1
            rw [hkeys] at h2
            exact (range'_pairwise_lt 1 N).sublist h2
  · intro db N M p hb ha hkeys hall hM
    have hlen : db.addIndexEntries.length = N := by
      have := congrArg List.length hkeys
      simpa using this
    have hallx : ∀ e ∈ db.addIndexEntries, ∃ j, fetchInvoice db e.2 = .ok j := by
      intro e he
      obtain ⟨j, hj, -⟩ := fetchMatches_ok db Invoice.addIndex e (hall e he)
      exact ⟨j, hj⟩
    have hwf : queryWalk db ⟨0, M, p, false⟩ = db.addIndexEntries := by
      rw [queryWalk]
      simp only [Bool.false_eq_true, if_false]
      exact seekFrom_all_ge 1 _
        (fun x hx => range'_mem_ge 1 N x.1 (hkeys ▸ List.mem_map_of_mem Prod.fst hx))
    have hwr : queryWalk db ⟨0, M, p, true⟩ = db.addIndexEntries.reverse := by
      simp [queryWalk]
    have hcf := collectKeys_full db p db.addIndexEntries M hallx (by omega)
    have hcr := collectKeys_full db p db.addIndexEntries.reverse M
      (fun e he => hallx e (List.mem_reverse.mp he)) (by simp [hlen]; omega)
    refine ⟨db.addIndexEntries.filterMap (collectF db p), ?_, ?_⟩
    · simp [QueryInvoices, hb, ha, hwr, hcr, List.filterMap_reverse]
    · simp [QueryInvoices, hb, ha, hwf, hcf]

/-- Witness for C6 on the two-invoice ledger: offset-1 reversed query is
empty, the reversed walks start at the expected entries and descend, the
returned slice of a concrete query is ascending, and the reversed
offset-0 query over all invoices equals the forward one. -/
theorem c6_query_pagination_witness :
    QueryInvoices dbW2 ⟨1, 10, false, true⟩ = .ok (mkSlice ⟨1, 10, false, true⟩ []) ∧
    queryWalk dbW2 ⟨0, 10, false, true⟩ = dbW2.addIndexEntries.reverse ∧
    (queryWalk dbW2 ⟨2, 10, false, true⟩).map Prod.fst = (List.range' 1 1).reverse ∧
    List.Pairwise (· < ·)
      ((mkSlice ⟨0, 10, false, false⟩ [localStored, extStored]).invoices.map
        Invoice.addIndex) ∧
    QueryInvoices dbW2 ⟨0, 10, false, false⟩ =
      .ok (mkSlice ⟨0, 10, false, false⟩ [localStored, extStored]) ∧
    (∃ l, QueryInvoices dbW2 ⟨0, 10, false, true⟩ =
        .ok (mkSlice ⟨0, 10, false, true⟩ l) ∧
      QueryInvoices dbW2 ⟨0, 10, false, false⟩ =
        .ok (mkSlice ⟨0, 10, false, false⟩ l)) := by
  refine ⟨c6_query_pagination.1 dbW2 ⟨1, 10, false, true⟩ rfl rfl,
    c6_query_pagination.2.1 dbW2 ⟨0, 10, false, true⟩ rfl rfl,
    c6_query_pagination.2.2.1 dbW2 ⟨2, 10, false, true⟩ 2 rfl (by decide) (by decide)
      (by decide),
    c6_query_pagination.2.2.2.1 dbW2 ⟨0, 10, false, false⟩ 2 _ (by decide) (by decide)
      (by decide),
    by decide,
    c6_query_pagination.2.2.2.2 dbW2 2 10 false (by decide) (by decide) (by decide)
      (by decide) (by decide)⟩
